import Mathlib

/-!
# Buffered logging engine of `beatsaber-hook`

A shallow embedding of `extern/beatsaber-hook/src/utils/logging.cpp`
(`LoggerBuffer`, `Logger`, `get_global`, `Consumer` and the console chunking
loop), followed by the properties stated about them.

Conventions of the embedding:

* a `std::string` is a list of characters (`Str`); every place where the source
  hands a string over as a `const char*` (`c_str()`, `data()`) is embedded with
  `c_str`, which stops at the first NUL character; a `std::string_view`
  argument is a `StringView`, which also records the characters that follow the
  view in memory, since `data()` is read without regard to the size of the view;
* the file system, the platform console and the record of stream opens are
  collected in `World`, which every operation threads through;
* all buffer mutation in the source happens under `Logger::bufferMutex`, so a run
  of the program is embedded as a sequence of whole operations;
* the classes are declared in `shared/utils/logging.hpp`, which is not part of
  the sources at hand: their fields are the ones `logging.cpp` reads and writes,
  `Logger::get()` is taken as already constructed, only its tag being used, and
  the constructor of `Logger` follows the description of the specification.
-/

namespace Logging

/-- A `std::string`: a sequence of characters. -/
abbrev Str := List Char

/-- The NUL character, which terminates a C string. -/
def NUL : Char := Char.ofNat 0

/-- What a `const char*` consumer reads from `s.c_str()` (or `s.data()`):
the characters before the first NUL. -/
def c_str (s : Str) : Str := s.takeWhile (fun c => c != NUL)

/-- A `std::string_view` argument: `chars` are the characters of the view (its
`size()` is their number) and `beyond` are the characters that lie in memory
right after the view, up to the next NUL. For a view of a whole `std::string`,
which is how `Logger::log` calls `addMessage`, a NUL follows the view at once
and `beyond` is empty. -/
structure StringView where
  chars : Str
  beyond : Str
  deriving DecidableEq, Repr

/-- The implicit conversion of a `std::string` to a `std::string_view`. -/
def StringView.ofString (s : Str) : StringView := { chars := s, beyond := [] }

/-- The `std::string` constructed from `msg.data()`: a `const char*` read, which
ignores the size of the view and stops at the first NUL, inside the view or
beyond it. -/
def StringView.dataString (v : StringView) : Str := c_str (v.chars ++ v.beyond)

/-- Modelled from the spec: the enumeration `Logging::Level`, declared in
`shared/utils/logging.hpp`; the spec gives it as the closed set
CRITICAL, ERROR, WARNING, INFO, DEBUG. -/
inductive Level where
  | CRITICAL
  | ERROR
  | WARNING
  | INFO
  | DEBUG
  deriving DecidableEq, Repr

end Logging

open Logging

/-! ## The embedding of `logging.cpp` -/

/-- The function `get_level`: the textual name of a severity. The `default`
branch of the source (`"UNKNOWN"`) is not reachable from a value of the
enumeration. -/
def get_level : Level → Str
  | Level.CRITICAL => "CRITICAL".toList
  | Level.ERROR => "ERROR".toList
  | Level.WARNING => "WARNING".toList
  | Level.INFO => "INFO".toList
  | Level.DEBUG => "DEBUG".toList

/-- One line handed to the platform console by `__android_log_write` or
`__android_log_print`: priority, tag and text, the last two as C strings. For
`__android_log_print` the text is the format with its `%s` replaced. -/
structure ConsoleLine where
  prio : Level
  tag : Str
  text : Str
  deriving DecidableEq, Repr

/-- The environment of the logger: file contents by path (`none`: the file does
not exist), which directories exist, which paths an `std::ofstream` can open, how
many more characters the file system takes for the file at a path (`none`: no
limit; an insertion that does not fit fails), the paths on which an open was
attempted (oldest first), and the console output (oldest first). -/
structure World where
  files : Str → Option Str
  dirs : Str → Bool
  openable : Str → Bool
  room : Str → Option Nat
  opened : List Str
  console : List ConsoleLine

namespace World

/-- The call `__android_log_write(prio, tag, text)`; both strings arrive as
`const char*`. -/
def android_log_write (w : World) (prio : Level) (tag text : Str) : World :=
  { w with console := w.console ++ [⟨prio, c_str tag, c_str text⟩] }

/-- Content of the file at `path`, empty when it does not exist. -/
def content (w : World) (path : Str) : Str := (w.files path).getD []

/-- The constructor `std::ofstream file(path, std::ios::app)`: records the
attempt; when the path can be opened the file exists afterwards with its old
content. Returns `is_open()`. -/
def openAppend (w : World) (path : Str) : Bool × World :=
  if w.openable path then
    (true, { w with opened := w.opened ++ [path],
                    files := fun p => if p = path then some (w.content path) else w.files p })
  else
    (false, { w with opened := w.opened ++ [path] })

/-- The constructor `std::ofstream str(path)` (truncating mode), as in
`Logger::init`. -/
def openTrunc (w : World) (path : Str) : Bool × World :=
  if w.openable path then
    (true, { w with opened := w.opened ++ [path],
                    files := fun p => if p = path then some [] else w.files p })
  else
    (false, { w with opened := w.opened ++ [path] })

/-- Stream insertion `file << data` on an `std::ofstream` in append mode on
`path`; `good` is the state of the stream before the insertion and the returned
flag its state after it. On a stream that is not good (not open, or failed
earlier) nothing is written. On a good stream the data is appended when the file
system has room for it; otherwise only the part that fits is appended and the
stream fails. The source never checks the state of the stream. -/
def write (w : World) (good : Bool) (path data : Str) : Bool × World :=
  if good then
    match w.room path with
    | none =>
      (true,
        { w with files := fun p => if p = path then some (w.content path ++ data) else w.files p })
    | some r =>
      if data.length ≤ r then
        (true,
          { w with
            files := fun p => if p = path then some (w.content path ++ data) else w.files p,
            room := fun p => if p = path then some (r - data.length) else w.room p })
      else
        (false,
          { w with
            files := fun p =>
              if p = path then some (w.content path ++ data.take r) else w.files p,
            room := fun p => if p = path then some 0 else w.room p })
  else (false, w)

/-- Modelled from the spec: the file system primitive `deletefile(path)`
(delete-file), declared in `utils-functions.h`. -/
def deletefile (w : World) (path : Str) : World :=
  { w with files := fun p => if p = path then none else w.files p }

/-- Modelled from the spec: the file system primitive `fileexists(path)`
(path-exists check). -/
def fileexists (w : World) (path : Str) : Bool := (w.files path).isSome

/-- Modelled from the spec: the file system primitive `direxists(path)`
(directory-exists check). -/
def direxists (w : World) (path : Str) : Bool := w.dirs path

/-- Modelled from the spec: the file system primitive `mkpath(path)`
(create-directory-recursive). -/
def mkpath (w : World) (path : Str) : World :=
  { w with dirs := fun p => if p = path then true else w.dirs p }

end World

/-- Modelled from the spec: the class `LoggerBuffer` (the spec's MessageBuffer),
declared in `logging.hpp`: the destination path, the queue `messages` (front
first) and the flag `closed`, the three members `logging.cpp` uses. -/
structure LoggerBuffer where
  path : Str
  messages : List Str
  closed : Bool
  deriving DecidableEq, Repr

namespace LoggerBuffer

/-- The method `LoggerBuffer::length`. -/
def length (b : LoggerBuffer) : Nat :=
  if b.closed then 0 else b.messages.length

/-- The method `LoggerBuffer::addMessage(std::string_view msg)`. The new element
is constructed by `messages.emplace_back(msg.data())`, from a `const char*`. -/
def addMessage (b : LoggerBuffer) (msg : StringView) : LoggerBuffer :=
  if b.closed then b else { b with messages := b.messages ++ [msg.dataString] }

/-- The loop `for (; !messages.empty(); messages.pop_front())` of
`LoggerBuffer::flush`: inserts the front line (as a C string) and a newline into
the stream, then pops the line, whatever became of the insertions. `good` is the
state of the stream. Returns the queue left when the loop ends. -/
def flushLoop (path : Str) : Bool → List Str → World → List Str × World
  | _, [], w => ([], w)
  | good, m :: rest, w =>
    let (good1, w1) := w.write good path (c_str m)
    let (good2, w2) := w1.write good1 path ['\n']
    flushLoop path good2 rest w2

/-- The method `LoggerBuffer::flush`. `utilsTag` is `Logger::get().tag`, the tag
of the utils logger (built in the header). -/
def flush (utilsTag : Str) (b : LoggerBuffer) (w : World) : LoggerBuffer × World :=
  if b.length = 0 then (b, w)
  else
    let (isOpen, w1) := w.openAppend b.path
    let w2 :=
      if !isOpen then
        w1.android_log_write Level.CRITICAL utilsTag
          ("Could not open file: ".toList ++ c_str b.path ++ " when flushing buffer!".toList)
      else w1
    let (rest, w3) := flushLoop b.path isOpen b.messages w2
    ({ b with messages := rest }, w3)

end LoggerBuffer

/-- The macro `LOG_MAX_CHARS`. -/
def LOG_MAX_CHARS : Nat := 1000

/-- The call `s.substr(pos, n)` for `pos` within the string. -/
def substr (s : Str) (pos n : Nat) : Str := (s.drop pos).take n

/-- The call `s.find(c)`: offset of the first occurrence, `none` for `npos`. -/
def find : Str → Char → Option Nat
  | [], _ => none
  | x :: xs, c => if x = c then some 0 else (find xs c).map (fun k => k + 1)

/-- Modelled from the spec: the configuration record `LoggerOptions`
(`{toFile: bool, silent: bool}`), declared in `logging.hpp`. -/
structure LoggerOptions where
  silent : Bool
  toFile : Bool
  deriving DecidableEq, Repr

/-- Modelled from the spec: the class `Logger` (the spec's LoggerCore), declared
in `logging.hpp`: options, tag, and the reference `buff` to the logger's own
buffer, which its constructor registers in `Logger::buffers`; the reference is
embedded as the position of that buffer in the registry. -/
structure Logger where
  options : LoggerOptions
  tag : Str
  buff : Nat
  deriving DecidableEq, Repr

/-- The fields of `std::tm` read by the format `"%m-%d %H:%M:%S."`. -/
structure Tm where
  tm_mon : Nat
  tm_mday : Nat
  tm_hour : Nat
  tm_min : Nat
  tm_sec : Nat
  deriving DecidableEq, Repr

namespace Logger

/-- The loop `while (i < str.length())` of `Logger::log`, started with cursor `i`.
Every iteration consumes one unit of `fuel`; `none` means the fuel ran out with
the loop condition still true. The cursor is a `std::size_t`; it stays below
`str.length() + LOG_MAX_CHARS`, so no wrap-around arises. -/
def logLoop (lvl : Level) (tag str : Str) : Nat → Nat → World → Option World
  | 0, i, w => if i < str.length then none else some w
  | fuel + 1, i, w =>
    if i < str.length then
      let sub := substr str i LOG_MAX_CHARS
      match find sub '\n' with
      | some newline =>
        logLoop lvl tag str fuel (i + (newline + 1))
          (w.android_log_write lvl tag (substr sub 0 newline))
      | none =>
        logLoop lvl tag str fuel (i + LOG_MAX_CHARS) (w.android_log_write lvl tag sub)
    else some w

/-- Console part of `Logger::log(lvl, str)` for a logger that is not silent
(lines 199 to 214). The loop gets `str.length` units of fuel. -/
def logConsole (lg : Logger) (lvl : Level) (str : Str) (w : World) : Option World :=
  if str.length > LOG_MAX_CHARS then
    logLoop lvl lg.tag str str.length 0 w
  else
    some (w.android_log_write lvl lg.tag str)

end Logger

/-- Left padding of a field to `width` with `fill` (`std::setw`, `std::setfill`,
right adjustment); a longer field is left as it is. -/
def padLeft (width : Nat) (fill : Char) (s : Str) : Str :=
  List.replicate (width - s.length) fill ++ s

/-- Decimal text of a signed integer, as `operator<<` prints it. -/
def showInt (v : Int) : Str :=
  if v < 0 then '-' :: Nat.toDigits 10 v.natAbs else Nat.toDigits 10 v.toNat

/-- A two-digit decimal field of `std::put_time` (`%m`, `%d`, `%H`, `%M`, `%S`). -/
def put2 (n : Nat) : Str := padLeft 2 '0' (Nat.toDigits 10 n)

/-- The call `std::put_time(&bt, "%m-%d %H:%M:%S.")`; `%m` prints `tm_mon + 1`. -/
def put_time (bt : Tm) : Str :=
  put2 (bt.tm_mon + 1) ++ "-".toList ++ put2 bt.tm_mday ++ " ".toList ++
    put2 bt.tm_hour ++ ":".toList ++ put2 bt.tm_min ++ ":".toList ++ put2 bt.tm_sec ++ ".".toList

/-- The state of the logging engine: the registry `Logger::buffers`, the flag
`Logger::consumerStarted`, the static buffer `g` of `get_global`, the flag
`createdGlobal`, the tag of the utils logger `Logger::get()`, and the world. -/
structure Sys where
  buffers : List LoggerBuffer
  consumerStarted : Bool
  g : LoggerBuffer
  createdGlobal : Bool
  utilsTag : Str
  world : World

/-- The function `get_global`: on the first call removes an existing global log
file and announces the path; the returned reference is the field `g`. -/
def get_global (s : Sys) : Sys :=
  if !s.createdGlobal then
    let w1 := if s.world.fileexists s.g.path then s.world.deletefile s.g.path else s.world
    let w2 := w1.android_log_write Level.INFO "QuestHook[Logging]".toList
      ("Created get_global() log at path: ".toList ++ c_str s.g.path)
    { s with world := w2, createdGlobal := true }
  else s

namespace Sys

/-- Runs a method of the buffer at position `i` of the registry on the world. -/
def onBuffer (s : Sys) (i : Nat) (f : LoggerBuffer → World → LoggerBuffer × World) : Sys :=
  match s.buffers[i]? with
  | some b =>
    let (b1, w1) := f b s.world
    { s with buffers := s.buffers.set i b1, world := w1 }
  | none => s

/-- Runs a method of the global buffer `g` on the world. -/
def onGlobal (s : Sys) (f : LoggerBuffer → World → LoggerBuffer × World) : Sys :=
  let (g1, w1) := f s.g s.world
  { s with g := g1, world := w1 }

end Sys

namespace Logger

/-- The method `Logger::startConsumer`; the detached thread itself is the
operation `Consumer.pass` below. -/
def startConsumer (s : Sys) : Sys :=
  if !s.consumerStarted then
    { s with consumerStarted := true,
             world :=
               s.world.android_log_write Level.INFO s.utilsTag ("Started consumer thread!".toList) }
  else s

/-- The local `msg` of `Logger::log` (lines 223 to 229): `epochMs` is
`now.time_since_epoch()` in milliseconds, `bt` the result of `std::localtime`.
The operator `%` of the source truncates towards zero. -/
def logMessage (lg : Logger) (lvl : Level) (str : Str) (epochMs : Int) (bt : Tm) : Str :=
  let ms := Int.tmod epochMs 1000
  let oss := put_time bt ++ padLeft 3 '0' (showInt ms)
  oss ++ " ".toList ++ get_level lvl ++ " ".toList ++ lg.tag ++ ": ".toList ++ c_str str

/-- File part of `Logger::log` (the block under `if (options.toFile)`, lines 215
to 237): both enqueues happen under one hold of the lock; `msg` is a
`std::string`, passed to `addMessage` as a view of the whole string. -/
def logFile (lg : Logger) (lvl : Level) (str : Str) (epochMs : Int) (bt : Tm) (s : Sys) : Sys :=
  if lg.options.toFile then
    let msg := StringView.ofString (lg.logMessage lvl str epochMs bt)
    let s1 := s.onBuffer lg.buff (fun b w => (b.addMessage msg, w))
    let s2 := (get_global s1).onGlobal (fun b w => (b.addMessage msg, w))
    startConsumer s2
  else s

/-- The method `Logger::log(Logging::Level lvl, std::string str)`. -/
def log (lg : Logger) (lvl : Level) (str : Str) (epochMs : Int) (bt : Tm) (s : Sys) :
    Option Sys :=
  if lg.options.silent then some s
  else
    match lg.logConsole lvl str s.world with
    | none => none
    | some w1 => some (lg.logFile lvl str epochMs bt { s with world := w1 })

/-- The method `Logger::init`; `logDir` is `buff.get_logDir()`. -/
def init (lg : Logger) (logDir : Str) (s : Sys) : Sys :=
  if lg.options.toFile then
    match s.buffers[lg.buff]? with
    | none => s
    | some b =>
      let w1 := if s.world.fileexists b.path then s.world.deletefile b.path else s.world
      let w2 :=
        if !w1.direxists logDir then
          (w1.mkpath logDir).android_log_write Level.INFO lg.tag
            ("Created logger buffer dir: ".toList ++ c_str logDir)
        else w1
      let (isOpen, w3) := w2.openTrunc b.path
      if !isOpen then
        { s with
          world := w3.android_log_write Level.CRITICAL lg.tag
            ("Could not open logger buffer file: ".toList ++ c_str b.path ++ "!".toList),
          buffers := s.buffers.set lg.buff { b with closed := true } }
      else { s with world := w3 }
  else s

/-- Modelled from the spec: the constructor of `Logger`, declared in
`logging.hpp`: it creates the logger's buffer for `path`, registers it at the
end of `Logger::buffers` (registration is append-only, once per logger) and
calls `init()`. Returns the logger and the new state. -/
def construct (options : LoggerOptions) (tag path logDir : Str) (s : Sys) : Logger × Sys :=
  let lg : Logger := { options := options, tag := tag, buff := s.buffers.length }
  (lg, lg.init logDir
    { s with buffers := s.buffers ++ [{ path := path, messages := [], closed := false }] })

/-- The method `Logger::flush`. -/
def flush (lg : Logger) (s : Sys) : Sys :=
  let s1 := s.onBuffer lg.buff (LoggerBuffer.flush s.utilsTag)
  (get_global s1).onGlobal (LoggerBuffer.flush s.utilsTag)

/-- The method `Logger::close`. -/
def close (lg : Logger) (s : Sys) : Sys :=
  let s1 := s.onBuffer lg.buff (LoggerBuffer.flush s.utilsTag)
  let s2 := (get_global s1).onGlobal (LoggerBuffer.flush s.utilsTag)
  s2.onBuffer lg.buff (fun b w => ({ b with closed := true }, w))

/-- The loop `for (auto& buffer : Logger::buffers) buffer.flush();`. -/
def flushEach (utilsTag : Str) : List LoggerBuffer → World → List LoggerBuffer × World
  | [], w => ([], w)
  | b :: bs, w =>
    let (b1, w1) := b.flush utilsTag w
    let (bs1, w2) := flushEach utilsTag bs w1
    (b1 :: bs1, w2)

/-- The loop of `Logger::closeAll`: flush each buffer, then mark it closed. -/
def closeEach (utilsTag : Str) : List LoggerBuffer → World → List LoggerBuffer × World
  | [], w => ([], w)
  | b :: bs, w =>
    let (b1, w1) := b.flush utilsTag w
    let (bs1, w2) := closeEach utilsTag bs w1
    ({ b1 with closed := true } :: bs1, w2)

/-- The static method `Logger::flushAll`. -/
def flushAll (s : Sys) : Sys :=
  let w0 := s.world.android_log_write Level.CRITICAL s.utilsTag "Flushing all buffers!".toList
  let (bs, w1) := flushEach s.utilsTag s.buffers w0
  let s1 := (get_global { s with buffers := bs, world := w1 }).onGlobal
    (LoggerBuffer.flush s.utilsTag)
  { s1 with world :=
      s1.world.android_log_write Level.CRITICAL s.utilsTag ("All buffers flushed!".toList) }

/-- The static method `Logger::closeAll`. -/
def closeAll (s : Sys) : Sys :=
  let w0 := s.world.android_log_write Level.CRITICAL s.utilsTag "Closing all buffers!".toList
  let (bs, w1) := closeEach s.utilsTag s.buffers w0
  let s1 := (get_global { s with buffers := bs, world := w1 }).onGlobal
    (LoggerBuffer.flush s.utilsTag)
  let s2 := (get_global s1).onGlobal (fun b w => ({ b with closed := true }, w))
  { s2 with world :=
      s2.world.android_log_write Level.CRITICAL s.utilsTag ("All buffers closed!".toList) }

end Logger

namespace Consumer

/-- One iteration of the loop of `Consumer::operator()`: flush every registered
buffer, then the global one, all under the lock. -/
def pass (s : Sys) : Sys :=
  let (bs, w1) := Logger.flushEach s.utilsTag s.buffers s.world
  (get_global { s with buffers := bs, world := w1 }).onGlobal (LoggerBuffer.flush s.utilsTag)

end Consumer

/-! ## Calls, runs and what is observed of them -/

namespace LoggerBuffer

/-- Text that a flush of the queue `ms` sends to an open stream: every line as a
C string, each followed by a newline. -/
def rendered (ms : List Str) : Str := (ms.map (fun m => c_str m ++ ['\n'])).flatten

end LoggerBuffer

/-- One call on a `LoggerBuffer`. -/
inductive BufferCall where
  | addMessage (msg : StringView)
  | flush
  deriving DecidableEq, Repr

namespace BufferCall

/-- Whether the call is a `flush()`. -/
def isFlush : BufferCall → Bool
  | addMessage _ => false
  | flush => true

/-- The view passed, when the call is an `addMessage`. -/
def line? : BufferCall → Option StringView
  | addMessage msg => some msg
  | flush => none

/-- The calls up to and including the last `flush()` of the sequence. -/
def upToLastFlush : List BufferCall → List BufferCall
  | [] => []
  | c :: cs => if (c :: cs).any isFlush then c :: upToLastFlush cs else []

/-- The views passed to `addMessage` before the last `flush()`, in call order. -/
def passedBeforeLastFlush (cs : List BufferCall) : List StringView :=
  (upToLastFlush cs).filterMap line?

end BufferCall

namespace LoggerBuffer

/-- Performs one call on a buffer. -/
def call (utilsTag : Str) (st : LoggerBuffer × World) : BufferCall → LoggerBuffer × World
  | BufferCall.addMessage msg => (st.1.addMessage msg, st.2)
  | BufferCall.flush => st.1.flush utilsTag st.2

/-- Performs a sequence of calls, first to last. -/
def calls (utilsTag : Str) (st : LoggerBuffer × World) (cs : List BufferCall) :
    LoggerBuffer × World :=
  cs.foldl (call utilsTag) st

end LoggerBuffer

/-- The view is a C string: no NUL among its characters and a NUL right after
them, as for a view of a whole `std::string` without interior NUL. -/
def Logging.StringView.IsCString (v : StringView) : Prop := v.beyond = [] ∧ NUL ∉ v.chars

/-- Characters at offsets `a` up to, not including, `b` of `s`. -/
def charsBetween (s : Str) (a b : Nat) : Str := (s.drop a).take (b - a)

/-- The console lines that the chunk rule gives for a message of `n` characters
without a newline: `ceil (n / 1000)` lines, line `k` (from 0) holding the
characters at offsets `1000 * k` up to `min (1000 * (k + 1)) n`. -/
def Logger.plainLines (lvl : Level) (tag str : Str) : List ConsoleLine :=
  (List.range ((str.length + 999) / 1000)).map
    (fun k => ⟨lvl, c_str tag, charsBetween str (1000 * k) (min (1000 * (k + 1)) str.length)⟩)

/-- A number below 100 written with exactly two decimal digits. -/
def twoDigits (n : Nat) : Str := [Nat.digitChar (n / 10), Nat.digitChar (n % 10)]

/-- A number below 1000 written with exactly three decimal digits. -/
def threeDigits (n : Nat) : Str :=
  [Nat.digitChar (n / 100), Nat.digitChar (n / 10 % 10), Nat.digitChar (n % 10)]

/-- The line format `MM-DD HH:MM:SS.mmm LEVEL tag: text` as the spec words it:
two-digit date and time fields, a three-digit millisecond part, the severity
name, the tag, a colon and a space, and the text. -/
def diskLine (month day hour minute second ms : Nat) (level tag text : Str) : Str :=
  twoDigits month ++ "-".toList ++ twoDigits day ++ " ".toList ++ twoDigits hour ++
    ":".toList ++ twoDigits minute ++ ":".toList ++ twoDigits second ++ ".".toList ++
    threeDigits ms ++ " ".toList ++ level ++ " ".toList ++ tag ++ ": ".toList ++ text

/-- The one-time console notices that the file part of `Logger::log` can add:
the notice of `get_global` on its first call and the notice of `startConsumer`
on its first call. -/
def Logger.notices (s : Sys) : List ConsoleLine :=
  (if !s.createdGlobal then
    [⟨Level.INFO, c_str "QuestHook[Logging]".toList,
      c_str ("Created get_global() log at path: ".toList ++ c_str s.g.path)⟩]
  else []) ++
  (if !s.consumerStarted then
    [⟨Level.INFO, c_str s.utilsTag, c_str "Started consumer thread!".toList⟩]
  else [])

/-- One operation on the engine; `consumerPass` is one iteration of the
background consumer (it may be scheduled at any point of a run). Every operation
holds `Logger::bufferMutex` for all of its buffer accesses, so operations act
one after another. `construct` is the construction of a further logger, `init`
a further call of `Logger::init` on an existing one. -/
inductive Op where
  | log (lg : Logger) (lvl : Level) (str : Str) (epochMs : Int) (bt : Tm)
  | init (lg : Logger) (logDir : Str)
  | flush (lg : Logger)
  | close (lg : Logger)
  | flushAll
  | closeAll
  | consumerPass
  | construct (options : LoggerOptions) (tag path logDir : Str)

/-- Performs one operation; `none` only if the chunking loop ran out of fuel. -/
def Op.step (s : Sys) : Op → Option Sys
  | Op.construct options tag path logDir => some (Logger.construct options tag path logDir s).2
  | Op.log lg lvl str epochMs bt => lg.log lvl str epochMs bt s
  | Op.init lg logDir => some (lg.init logDir s)
  | Op.flush lg => some (lg.flush s)
  | Op.close lg => some (lg.close s)
  | Op.flushAll => some (Logger.flushAll s)
  | Op.closeAll => some (Logger.closeAll s)
  | Op.consumerPass => some (Consumer.pass s)

/-- The lines by which the queue grew between two states of a buffer. -/
def LoggerBuffer.gained (before after : LoggerBuffer) : List Str :=
  after.messages.drop before.messages.length

/-- The lines accepted into the registered (per-logger) buffers during a step:
for every position of the registry, the lines by which that queue grew. -/
def Sys.ownAccepted (s s1 : Sys) : List Str :=
  (List.zipWith LoggerBuffer.gained s.buffers s1.buffers).flatten

/-- The lines the global buffer received during a step. -/
def Sys.globalReceived (s s1 : Sys) : List Str :=
  LoggerBuffer.gained s.g s1.g

/-- What a run leaves behind: the final state, the lines accepted into the
loggers' own buffers and the lines received by the global buffer, each line with
the number of the step that enqueued it, oldest first. -/
structure History where
  final : Sys
  own : List (Nat × Str)
  glob : List (Nat × Str)

/-- Runs the operations `ops` from `s`, numbering the steps from `n`. -/
def Sys.run (s : Sys) : List Op → Nat → Option History
  | [], _ => some ⟨s, [], []⟩
  | op :: ops, n =>
    match op.step s with
    | none => none
    | some s1 =>
      match Sys.run s1 ops (n + 1) with
      | none => none
      | some h =>
        some ⟨h.final, (s.ownAccepted s1).map (fun l => (n, l)) ++ h.own,
          (s.globalReceived s1).map (fun l => (n, l)) ++ h.glob⟩

/-- The text the global sink holds: the content of its file plus the rendering of
its pending lines. Before the first call of `get_global` a file at that path is
a leftover of an earlier process, which the first call deletes, and is not
counted. -/
def Sys.sinkText (s : Sys) : Str :=
  if s.createdGlobal then s.world.content s.g.path ++ LoggerBuffer.rendered s.g.messages
  else LoggerBuffer.rendered s.g.messages

namespace Logger

/-- The successive values of `sub` that the loop of `Logger::log` hands to the
console, before their conversion to C strings; the same recursion as `logLoop`. -/
def pieces (str : Str) : Nat → Nat → Option (List Str)
  | 0, i => if i < str.length then none else some []
  | fuel + 1, i =>
    if i < str.length then
      let sub := substr str i LOG_MAX_CHARS
      match find sub '\n' with
      | some newline =>
        (pieces str fuel (i + (newline + 1))).map (fun ps => substr sub 0 newline :: ps)
      | none => (pieces str fuel (i + LOG_MAX_CHARS)).map (fun ps => sub :: ps)
    else some []

/-- The world after the console received the pieces `ps` from `Logger::log`. -/
def emit (lvl : Level) (tag : Str) (ps : List Str) (w : World) : World :=
  { w with console := w.console ++ ps.map (fun p => ⟨lvl, c_str tag, c_str p⟩) }

end Logger

namespace LoggerBuffer

end LoggerBuffer

/-- A world with no files, where every path can be opened. -/
def World.blank : World :=
  { files := fun _ => none, dirs := fun _ => false, openable := fun _ => true,
    room := fun _ => none, opened := [], console := [] }

/-- A world with no files, where no path can be opened. -/
def World.sealed : World :=
  { files := fun _ => none, dirs := fun _ => false, openable := fun _ => false,
    room := fun _ => none, opened := [], console := [] }

/-- A closed buffer that still holds one line. -/
def LoggerBuffer.closedPending : LoggerBuffer :=
  { path := "mod.log".toList, messages := ["a".toList], closed := true }

/-- An open buffer that holds two lines. -/
def LoggerBuffer.openPending : LoggerBuffer :=
  { path := "mod.log".toList, messages := ["a".toList, "b".toList], closed := false }

/-- An open buffer that holds nothing. -/
def LoggerBuffer.fresh : LoggerBuffer :=
  { path := "mod.log".toList, messages := [], closed := false }

/-- A world with no files, where every path can be opened and the file system
takes two more characters for each file. -/
def World.nearlyFull : World :=
  { files := fun _ => none, dirs := fun _ => false, openable := fun _ => true,
    room := fun _ => some 2, opened := [], console := [] }

/-- A run of calls in which a line with an interior NUL is enqueued and flushed. -/
def BufferCall.nulRun : List BufferCall :=
  [BufferCall.addMessage (StringView.ofString ['a', NUL, 'b']), BufferCall.flush]

/-- A run of calls in which the view `hello` of the characters `hello world` is
enqueued and flushed. -/
def BufferCall.prefixRun : List BufferCall :=
  [BufferCall.addMessage { chars := "hello".toList, beyond := " world".toList },
   BufferCall.flush]

/-- A run of calls in which the lines `a` and `b` are enqueued and flushed. -/
def BufferCall.twoLineRun : List BufferCall :=
  [BufferCall.addMessage (StringView.ofString "a".toList),
   BufferCall.addMessage (StringView.ofString "b".toList), BufferCall.flush]

/-- A run of calls with flushes between the enqueues. -/
def BufferCall.mixedRun : List BufferCall :=
  [BufferCall.addMessage (StringView.ofString "x".toList), BufferCall.flush, BufferCall.flush,
   BufferCall.addMessage (StringView.ofString "y".toList),
   BufferCall.addMessage (StringView.ofString "z".toList), BufferCall.flush,
   BufferCall.addMessage (StringView.ofString "late".toList)]

/-- A console-only logger. -/
def Logger.consoleOnly : Logger :=
  { options := { silent := false, toFile := false }, tag := "QuestHook[mod|v1]".toList, buff := 0 }

/-- A logger that also logs to file. -/
def Logger.filing : Logger :=
  { options := { silent := false, toFile := true }, tag := "QuestHook[mod|v1]".toList, buff := 0 }

/-- A system with one registered open buffer and a fresh global buffer. -/
def Sys.start : Sys :=
  { buffers := [LoggerBuffer.fresh], consumerStarted := false,
    g := { path := "GlobalLog.log".toList, messages := [], closed := false },
    createdGlobal := false, utilsTag := "QuestHook[UtilsLogger|v0.0.0]".toList,
    world := World.blank }

/-- A message of 1001 characters without newline whose first character is NUL. -/
def Logger.nulFirst : Str := NUL :: List.replicate 1000 'a'

/-- A message of 1004 characters: `a`, NUL, `b`, a newline, then 1000 letters `c`. -/
def Logger.nulBeforeNewline : Str := 'a' :: NUL :: 'b' :: '\n' :: List.replicate 1000 'c'

/-- A message of 2500 characters whose only newline is at offset 400. -/
def Logger.newlineAt400 : Str := List.replicate 400 'a' ++ '\n' :: List.replicate 2099 'b'

/-- A message of 1003 characters without newline whose second character is NUL. -/
def Logger.nulInside : Str := 'a' :: NUL :: 'b' :: List.replicate 1000 'c'

/-- A system with two registered buffers, the second closed (as `Logger::init`
leaves it when its file cannot be created). -/
def Sys.two : Sys :=
  { buffers := [LoggerBuffer.fresh,
      { path := "other.log".toList, messages := [], closed := true }],
    consumerStarted := false,
    g := { path := "GlobalLog.log".toList, messages := [], closed := false },
    createdGlobal := false, utilsTag := "QuestHook[UtilsLogger|v0.0.0]".toList,
    world := World.blank }

/-- The logger that owns the second buffer of `Sys.two`. -/
def Logger.other : Logger :=
  { options := { silent := false, toFile := true }, tag := "QuestHook[other|v1]".toList,
    buff := 1 }

/-- The logger that a construction on `Sys.two` returns: its buffer is the
third of the registry. -/
def Logger.third : Logger :=
  { options := { silent := false, toFile := true }, tag := "QuestHook[new|v1]".toList,
    buff := 2 }

/-- Log calls of three loggers, one of them constructed during the run, around a
flush, a pass of the consumer and a `closeAll`. -/
def Op.constructRun : List Op :=
  [Op.log Logger.filing Level.INFO "x".toList 6 ⟨0, 2, 3, 4, 5⟩,
   Op.log Logger.other Level.ERROR "w".toList 7 ⟨0, 2, 3, 4, 5⟩,
   Op.construct { silent := false, toFile := true } "QuestHook[new|v1]".toList
     "new.log".toList "logs".toList,
   Op.log Logger.third Level.ERROR "y".toList 7 ⟨0, 2, 3, 4, 5⟩,
   Op.flush Logger.filing,
   Op.consumerPass,
   Op.closeAll,
   Op.log Logger.filing Level.INFO "z".toList 8 ⟨0, 2, 3, 4, 5⟩]

namespace LoggerBuffer

theorem addMessage_of_closed (b : LoggerBuffer) (h : b.closed = true) (msg : StringView) :
    b.addMessage msg = b := by
  simp [addMessage, h]

theorem foldl_addMessage_of_closed (b : LoggerBuffer) (h : b.closed = true)
    (msgs : List StringView) :
    msgs.foldl addMessage b = b := by
  induction msgs with
  | nil => rfl
  | cons m ms ih => simpa [List.foldl, addMessage_of_closed b h m] using ih

theorem length_of_closed (b : LoggerBuffer) (h : b.closed = true) : b.length = 0 := by
  simp [length, h]

theorem flush_of_length_zero (utilsTag : Str) (b : LoggerBuffer) (w : World)
    (h : b.length = 0) : b.flush utilsTag w = (b, w) := by
  simp [flush, h]

theorem flushLoop_fst (path : Str) (good : Bool) (ms : List Str) (w : World) :
    (flushLoop path good ms w).1 = [] := by
  induction ms generalizing good w with
  | nil => rfl
  | cons m ms ih => simpa [flushLoop] using ih _ _

theorem flushLoop_closed_stream (path : Str) (ms : List Str) (w : World) :
    (flushLoop path false ms w).2 = w := by
  induction ms generalizing w with
  | nil => rfl
  | cons m ms ih => simpa [flushLoop, World.write] using ih _

end LoggerBuffer

/-- C6: when an open buffer holds at least one line and the destination cannot be
opened, `flush()` returns with the queue empty, leaves every file as it was, and
writes one console line at CRITICAL severity naming the path; the only other
change to the world is the recorded open attempt. -/
theorem LoggerBuffer.flush_open_failure (utilsTag : Str) (b : LoggerBuffer) (w : World)
    (hclosed : b.closed = false) (hpending : b.messages ≠ [])
    (hfail : w.openable b.path = false) :
    b.flush utilsTag w =
      ({ b with messages := [] },
       { w with
         opened := w.opened ++ [b.path],
         console := w.console ++
           [⟨Level.CRITICAL, c_str utilsTag,
             c_str ("Could not open file: ".toList ++ c_str b.path ++
               " when flushing buffer!".toList)⟩] }) := by
  have hlen : b.length ≠ 0 := by
    simpa [LoggerBuffer.length, hclosed] using hpending
  simp only [LoggerBuffer.flush, hlen, if_false, World.openAppend, hfail, Bool.false_eq_true,
    Bool.not_false, if_true, World.android_log_write]
  rw [Prod.ext_iff]
  refine ⟨?_, ?_⟩
  · simp [LoggerBuffer.flushLoop_fst]
  · simp [LoggerBuffer.flushLoop_closed_stream]

theorem LoggerBuffer.flush_open_failure_witness :
    (LoggerBuffer.openPending.flush "utils".toList World.sealed).1.messages = [] ∧
      (LoggerBuffer.openPending.flush "utils".toList World.sealed).2.files "mod.log".toList
        = none ∧
      ((LoggerBuffer.openPending.flush "utils".toList World.sealed).2.console.map
        (fun l => l.prio)) = [Level.CRITICAL] := by
  rw [LoggerBuffer.flush_open_failure "utils".toList LoggerBuffer.openPending World.sealed
    rfl (by decide) rfl]
  exact ⟨rfl, rfl, rfl⟩

/-- C7 as stated fails: a closed buffer that holds the line `a` is flushed with
its file openable, and afterwards the file still does not exist while the line
is still in the queue. -/
theorem LoggerBuffer.flush_closed_pending_not_written :
    (LoggerBuffer.closedPending.flush "utils".toList World.blank).2.files
        LoggerBuffer.closedPending.path = none ∧
      (LoggerBuffer.closedPending.flush "utils".toList World.blank).2.content
        LoggerBuffer.closedPending.path ≠ LoggerBuffer.rendered ["a".toList] ∧
      (LoggerBuffer.closedPending.flush "utils".toList World.blank).1.messages
        = ["a".toList] := by
  decide

/-- C7, amended: `flush()` of a closed buffer does nothing, whatever the buffer
holds: no open is attempted, no file and no console line is written, and the
pending lines stay in the queue. -/
theorem LoggerBuffer.flush_of_closed (utilsTag : Str) (b : LoggerBuffer) (w : World)
    (h : b.closed = true) : b.flush utilsTag w = (b, w) :=
  LoggerBuffer.flush_of_length_zero utilsTag b w (LoggerBuffer.length_of_closed b h)

theorem LoggerBuffer.flush_of_closed_witness :
    LoggerBuffer.closedPending.closed = true ∧
      LoggerBuffer.closedPending.flush "utils".toList World.blank
        = (LoggerBuffer.closedPending, World.blank) :=
  ⟨rfl, LoggerBuffer.flush_of_closed "utils".toList LoggerBuffer.closedPending World.blank rfl⟩

/-- C8: `flush()` of a buffer with an empty queue returns the buffer and the world
as they were (so no open is recorded and no file changes); in particular a
destination file that did not exist still does not exist. -/
theorem LoggerBuffer.flush_of_empty (utilsTag : Str) (b : LoggerBuffer) (w : World)
    (h : b.messages = []) :
    b.flush utilsTag w = (b, w) ∧
      (b.flush utilsTag w).2.opened = w.opened ∧
      (w.files b.path = none → (b.flush utilsTag w).2.files b.path = none) := by
  have hlen : b.length = 0 := by
    simp [LoggerBuffer.length, h]
  rw [LoggerBuffer.flush_of_length_zero utilsTag b w hlen]
  exact ⟨rfl, rfl, fun hnone => hnone⟩

theorem LoggerBuffer.flush_of_empty_witness :
    LoggerBuffer.fresh.messages = [] ∧
      LoggerBuffer.fresh.flush "utils".toList World.blank = (LoggerBuffer.fresh, World.blank) ∧
      (LoggerBuffer.fresh.flush "utils".toList World.blank).2.opened = [] ∧
      (LoggerBuffer.fresh.flush "utils".toList World.blank).2.files LoggerBuffer.fresh.path
        = none :=
  ⟨rfl, (LoggerBuffer.flush_of_empty "utils".toList LoggerBuffer.fresh World.blank rfl).1,
    (LoggerBuffer.flush_of_empty "utils".toList LoggerBuffer.fresh World.blank rfl).2.1,
    (LoggerBuffer.flush_of_empty "utils".toList LoggerBuffer.fresh World.blank rfl).2.2 rfl⟩

namespace LoggerBuffer

theorem c_str_eq_self {s : Str} (h : NUL ∉ s) : c_str s = s := by
  unfold c_str
  rw [List.takeWhile_eq_self_iff]
  intro c hc
  have : c ≠ NUL := fun e => h (e ▸ hc)
  simpa using this

theorem c_str_no_nul (s : Str) : NUL ∉ c_str s := by
  intro h
  have := List.mem_takeWhile_imp h
  simp at this

theorem c_str_idem (s : Str) : c_str (c_str s) = c_str s :=
  c_str_eq_self (c_str_no_nul s)

theorem rendered_append (xs ys : List Str) : rendered (xs ++ ys) = rendered xs ++ rendered ys := by
  simp [rendered]

theorem rendered_cons (x : Str) (xs : List Str) :
    rendered (x :: xs) = c_str x ++ '\n' :: rendered xs := by
  simp [rendered]

theorem write_unlimited (w : World) (path data : Str) (hroom : w.room path = none) :
    ∃ w1, w.write true path data = (true, w1) ∧
      w1.content path = w.content path ++ data ∧ w1.openable = w.openable ∧
      w1.room = w.room := by
  refine ⟨{ w with files := fun p =>
    if p = path then some (w.content path ++ data) else w.files p }, ?_, ?_, rfl, rfl⟩
  · simp [World.write, hroom]
  · simp [World.content]

theorem flushLoop_open (path : Str) (ms : List Str) (w : World) (hroom : w.room path = none) :
    (flushLoop path true ms w).2.content path = w.content path ++ rendered ms ∧
      (flushLoop path true ms w).2.openable = w.openable ∧
      (flushLoop path true ms w).2.room = w.room := by
  induction ms generalizing w with
  | nil => simp [flushLoop, rendered]
  | cons m ms ih =>
    obtain ⟨w1, e1, c1, o1, r1⟩ := write_unlimited w path (c_str m) hroom
    obtain ⟨w2, e2, c2, o2, r2⟩ := write_unlimited w1 path ['\n'] (by rw [r1]; exact hroom)
    obtain ⟨h1, h2, h3⟩ := ih w2 (by rw [r2, r1]; exact hroom)
    simp only [flushLoop, e1, e2]
    refine ⟨?_, by rw [h2, o2, o1], by rw [h3, r2, r1]⟩
    rw [h1, c2, c1, rendered_cons]
    simp

theorem flush_open_success (utilsTag : Str) (b : LoggerBuffer) (w : World)
    (hclosed : b.closed = false) (hopen : w.openable b.path = true)
    (hroom : w.room b.path = none) :
    (b.flush utilsTag w).1 = { b with messages := [] } ∧
      (b.flush utilsTag w).2.content b.path = w.content b.path ++ rendered b.messages ∧
      (b.flush utilsTag w).2.openable = w.openable ∧
      (b.flush utilsTag w).2.room = w.room := by
  by_cases hm : b.messages = []
  · have hlen : b.length = 0 := by simp [length, hm]
    rw [flush_of_length_zero utilsTag b w hlen]
    refine ⟨?_, by simp [hm, rendered], rfl, rfl⟩
    cases b
    simp_all
  · have hlen : b.length ≠ 0 := by simpa [length, hclosed] using hm
    simp only [flush, hlen, if_false, World.openAppend, hopen, if_true, Bool.not_true,
      Bool.false_eq_true]
    have h := flushLoop_open b.path b.messages
      { w with opened := w.opened ++ [b.path],
               files := fun p => if p = b.path then some (w.content b.path) else w.files p }
      hroom
    refine ⟨?_, ?_, ?_, ?_⟩
    · simp [flushLoop_fst]
    · rw [h.1]
      simp [World.content]
    · rw [h.2.1]
    · rw [h.2.2]

theorem dataString_of_isCString {v : StringView} (h : v.IsCString) : v.dataString = v.chars := by
  unfold StringView.dataString
  rw [h.1, List.append_nil, c_str_eq_self h.2]

theorem c_str_dataString (v : StringView) : c_str v.dataString = v.dataString :=
  c_str_idem _

theorem calls_content (utilsTag : Str) (cs : List BufferCall) (b : LoggerBuffer) (w : World)
    (hclosed : b.closed = false) (hopen : w.openable b.path = true)
    (hroom : w.room b.path = none) :
    (calls utilsTag (b, w) cs).2.content b.path =
      w.content b.path ++
        (if cs.any BufferCall.isFlush then
          rendered (b.messages ++
            (BufferCall.passedBeforeLastFlush cs).map StringView.dataString) else []) := by
  induction cs generalizing b w with
  | nil => simp [calls]
  | cons c cs ih =>
    cases c with
    | addMessage msg =>
      have h := ih (b.addMessage msg) w (by simp [addMessage, hclosed])
        (by simpa [addMessage, hclosed] using hopen)
        (by simpa [addMessage, hclosed] using hroom)
      have hpath : (b.addMessage msg).path = b.path := by simp [addMessage, hclosed]
      have hmsg : (b.addMessage msg).messages = b.messages ++ [msg.dataString] := by
        simp [addMessage, hclosed]
      simp only [calls, List.foldl, call] at h ⊢
      rw [hpath, hmsg] at h
      rw [h]
      by_cases hf : cs.any BufferCall.isFlush
      · simp [hf, BufferCall.isFlush, BufferCall.passedBeforeLastFlush,
          BufferCall.upToLastFlush, BufferCall.line?, rendered_append, rendered_cons, rendered]
      · simp [hf, BufferCall.isFlush]
    | flush =>
      obtain ⟨h1, h2, h3, h4⟩ := flush_open_success utilsTag b w hclosed hopen hroom
      have h := ih (b.flush utilsTag w).1 (b.flush utilsTag w).2 (by rw [h1]; exact hclosed)
        (by rw [h3, h1]; exact hopen) (by rw [h4, h1]; exact hroom)
      have hpath : (b.flush utilsTag w).1.path = b.path := by rw [h1]
      have hmsg : (b.flush utilsTag w).1.messages = [] := by rw [h1]
      simp only [calls, List.foldl, call] at h ⊢
      rw [hpath, hmsg, h2] at h
      rw [h]
      by_cases hf : cs.any BufferCall.isFlush
      · simp [hf, BufferCall.isFlush, BufferCall.passedBeforeLastFlush,
          BufferCall.upToLastFlush, BufferCall.line?, rendered_append]
      · have hnil : BufferCall.upToLastFlush cs = [] := by
          cases cs with
          | nil => rfl
          | cons d ds => simp [BufferCall.upToLastFlush, hf]
        simp [hf, BufferCall.isFlush, BufferCall.passedBeforeLastFlush,
          BufferCall.upToLastFlush, BufferCall.line?, hnil]

end LoggerBuffer

/-- C1 as stated fails, in three ways. (1) The file can be opened but has room
for two more characters: after `a` and `b` are enqueued and flushed the file
holds `a` and a newline, the queue is empty and `b` is lost. (2) The view
`hello` of the characters `hello world` is enqueued and flushed: the file holds
`hello world` and a newline. (3) The line `a`, NUL, `b` is enqueued and flushed:
the file holds `a` and a newline. In each case the file differs from the lines
that were passed, each followed by a newline. -/
theorem LoggerBuffer.calls_nul_line_cut :
    ((LoggerBuffer.calls "utils".toList (LoggerBuffer.fresh, World.nearlyFull)
        BufferCall.twoLineRun).2.content LoggerBuffer.fresh.path = ['a', '\n'] ∧
      (LoggerBuffer.calls "utils".toList (LoggerBuffer.fresh, World.nearlyFull)
        BufferCall.twoLineRun).1.messages = [] ∧
      ((BufferCall.passedBeforeLastFlush BufferCall.twoLineRun).map
        (fun v => v.chars ++ ['\n'])).flatten = ['a', '\n', 'b', '\n']) ∧
    ((LoggerBuffer.calls "utils".toList (LoggerBuffer.fresh, World.blank)
        BufferCall.prefixRun).2.content LoggerBuffer.fresh.path = "hello world\n".toList ∧
      ((BufferCall.passedBeforeLastFlush BufferCall.prefixRun).map
        (fun v => v.chars ++ ['\n'])).flatten = "hello\n".toList) ∧
    ((LoggerBuffer.calls "utils".toList (LoggerBuffer.fresh, World.blank)
        BufferCall.nulRun).2.content LoggerBuffer.fresh.path = ['a', '\n'] ∧
      (LoggerBuffer.calls "utils".toList (LoggerBuffer.fresh, World.blank)
        BufferCall.nulRun).2.content LoggerBuffer.fresh.path ≠
        ((BufferCall.passedBeforeLastFlush BufferCall.nulRun).map
          (fun v => v.chars ++ ['\n'])).flatten) := by
  decide

/-- C1, amended: for every sequence of `addMessage` and `flush` calls on an open
buffer that starts with an empty queue, whose file can always be opened and
takes every write, and where every view passed before the last `flush` is a C
string (no NUL among its characters, a NUL right after them), the text appended
to the file is exactly the lines passed to `addMessage` before the last
`flush`, each followed by a newline, in enqueue order and each exactly once,
however the `flush` calls are interleaved with the `addMessage` calls. -/
theorem LoggerBuffer.calls_file_fifo (utilsTag : Str) (cs : List BufferCall)
    (b : LoggerBuffer) (w : World)
    (hclosed : b.closed = false) (hempty : b.messages = [])
    (hopen : w.openable b.path = true) (hroom : w.room b.path = none)
    (hviews : ∀ v ∈ BufferCall.passedBeforeLastFlush cs, v.IsCString) :
    (LoggerBuffer.calls utilsTag (b, w) cs).2.content b.path =
      w.content b.path ++
        ((BufferCall.passedBeforeLastFlush cs).map (fun v => v.chars ++ ['\n'])).flatten := by
  rw [LoggerBuffer.calls_content utilsTag cs b w hclosed hopen hroom, hempty]
  have hmap : (BufferCall.passedBeforeLastFlush cs).map
        (fun v => c_str v.dataString ++ ['\n']) =
      (BufferCall.passedBeforeLastFlush cs).map (fun v => v.chars ++ ['\n']) :=
    List.map_congr_left (fun v hv => by
      rw [LoggerBuffer.c_str_dataString, LoggerBuffer.dataString_of_isCString (hviews v hv)])
  by_cases hf : cs.any BufferCall.isFlush
  · simp only [hf, if_true, List.nil_append, LoggerBuffer.rendered, List.map_map]
    rw [← hmap]
    rfl
  · have hnil : BufferCall.upToLastFlush cs = [] := by
      cases cs with
      | nil => rfl
      | cons d ds => simp [BufferCall.upToLastFlush, hf]
    simp [hf, BufferCall.passedBeforeLastFlush, hnil]

theorem LoggerBuffer.calls_file_fifo_witness :
    LoggerBuffer.fresh.closed = false ∧ LoggerBuffer.fresh.messages = [] ∧
      World.blank.openable LoggerBuffer.fresh.path = true ∧
      World.blank.room LoggerBuffer.fresh.path = none ∧
      (∀ v ∈ BufferCall.passedBeforeLastFlush BufferCall.mixedRun, v.beyond = []) ∧
      (LoggerBuffer.calls "utils".toList (LoggerBuffer.fresh, World.blank)
          BufferCall.mixedRun).2.content LoggerBuffer.fresh.path = "x\ny\nz\n".toList := by
  refine ⟨rfl, rfl, rfl, rfl, by decide, ?_⟩
  rw [LoggerBuffer.calls_file_fifo "utils".toList BufferCall.mixedRun LoggerBuffer.fresh
    World.blank rfl rfl rfl rfl (by unfold StringView.IsCString; decide)]
  decide

theorem find_eq_none_iff (s : Str) (c : Char) : find s c = none ↔ c ∉ s := by
  induction s with
  | nil => simp [find]
  | cons x xs ih =>
    by_cases hx : x = c
    · simp [find, hx]
    · have hx2 : ¬ c = x := fun e => hx e.symm
      simp [find, hx, hx2, ih]

theorem find_eq_some_split (s : Str) (c : Char) (k : Nat) (h : find s c = some k) :
    ∃ a b, s = a ++ c :: b ∧ a.length = k ∧ c ∉ a := by
  induction s generalizing k with
  | nil => simp [find] at h
  | cons x xs ih =>
    by_cases hx : x = c
    · simp [find, hx] at h
      exact ⟨[], xs, by simp [hx], by simpa using h, by simp⟩
    · simp only [find, hx, if_false, Option.map_eq_some'] at h
      obtain ⟨j, hj, rfl⟩ := h
      obtain ⟨a, b, hs, hlen, hmem⟩ := ih j hj
      refine ⟨x :: a, b, by simp [hs], by simp [hlen], ?_⟩
      have hx2 : ¬ c = x := fun e => hx e.symm
      simp [hx2, hmem]

theorem find_split (a b : Str) (c : Char) (h : c ∉ a) : find (a ++ c :: b) c = some a.length := by
  induction a with
  | nil => simp [find]
  | cons x xs ih =>
    have hx : ¬ x = c := fun e => h (by simp [e])
    have hxs : c ∉ xs := fun e => h (by simp [e])
    simp [find, hx, ih hxs]

namespace Logger

theorem emit_nil (lvl : Level) (tag : Str) (w : World) : emit lvl tag [] w = w := by
  simp [emit]

theorem emit_cons (lvl : Level) (tag : Str) (p : Str) (ps : List Str) (w : World) :
    emit lvl tag (p :: ps) w = emit lvl tag ps (w.android_log_write lvl tag p) := by
  simp [emit, World.android_log_write]

theorem logLoop_eq_pieces (lvl : Level) (tag str : Str) (fuel i : Nat) (w : World) :
    logLoop lvl tag str fuel i w = (pieces str fuel i).map (fun ps => emit lvl tag ps w) := by
  induction fuel generalizing i w with
  | zero =>
    by_cases h : i < str.length <;> simp [logLoop, pieces, h, emit_nil]
  | succ fuel ih =>
    by_cases h : i < str.length
    · simp only [logLoop, pieces, h, if_true]
      cases hf : find (substr str i LOG_MAX_CHARS) '\n' with
      | none =>
        simp only [ih, Option.map_map]
        congr 1
        funext ps
        simp [emit_cons]
      | some newline =>
        simp only [ih, Option.map_map]
        congr 1
        funext ps
        simp [emit_cons]
    · simp [logLoop, pieces, h, emit_nil]

theorem pieces_isSome (str : Str) (fuel i : Nat) (h : str.length - i ≤ fuel) :
    ∃ ps, pieces str fuel i = some ps := by
  induction fuel generalizing i with
  | zero =>
    have : ¬ i < str.length := by omega
    exact ⟨[], by simp [pieces, this]⟩
  | succ fuel ih =>
    by_cases hi : i < str.length
    · simp only [pieces, hi, if_true]
      cases hf : find (substr str i LOG_MAX_CHARS) '\n' with
      | none =>
        obtain ⟨ps, hps⟩ := ih (i + LOG_MAX_CHARS) (by simp [LOG_MAX_CHARS]; omega)
        exact ⟨substr str i LOG_MAX_CHARS :: ps, by simp [hps]⟩
      | some newline =>
        obtain ⟨ps, hps⟩ := ih (i + (newline + 1)) (by omega)
        exact ⟨substr (substr str i LOG_MAX_CHARS) 0 newline :: ps, by simp [hps]⟩
    · exact ⟨[], by simp [pieces, hi]⟩

theorem pieces_fuel_irrel (str : Str) (f g i : Nat) (ps qs : List Str)
    (hf : pieces str f i = some ps) (hg : pieces str g i = some qs) : ps = qs := by
  induction f generalizing g i ps qs with
  | zero =>
    by_cases hi : i < str.length
    · simp [pieces, hi] at hf
    · cases g <;> simp [pieces, hi] at hf hg <;> rw [hf, hg]
  | succ f ih =>
    by_cases hi : i < str.length
    · cases g with
      | zero => simp [pieces, hi] at hg
      | succ g =>
        simp only [pieces, hi, if_true] at hf hg
        cases hfind : find (substr str i LOG_MAX_CHARS) '\n' with
        | none =>
          simp only [hfind, Option.map_eq_some'] at hf hg
          obtain ⟨ps1, hps1, rfl⟩ := hf
          obtain ⟨qs1, hqs1, rfl⟩ := hg
          rw [ih g _ ps1 qs1 hps1 hqs1]
        | some newline =>
          simp only [hfind, Option.map_eq_some'] at hf hg
          obtain ⟨ps1, hps1, rfl⟩ := hf
          obtain ⟨qs1, hqs1, rfl⟩ := hg
          rw [ih g _ ps1 qs1 hps1 hqs1]
    · cases g <;> simp [pieces, hi] at hf hg <;> rw [hf, hg]

theorem substr_zero (s : Str) (n : Nat) : substr s 0 n = s.take n := by
  simp [substr]

theorem drop_of_take_split (t a b : Str) (c : Char) (n : Nat) (h : t.take n = a ++ c :: b) :
    t.drop (a.length + 1) = b ++ t.drop n := by
  have ht : t = a ++ c :: (b ++ t.drop n) := by
    conv_lhs => rw [← List.take_append_drop n t, h]
    simp
  conv_lhs => rw [ht]
  rw [List.drop_append_eq_append_drop]
  simp

theorem filter_newline_of_not_mem (s : Str) (h : '\n' ∉ s) :
    s.filter (fun c => c != '\n') = s := by
  rw [List.filter_eq_self]
  intro c hc
  have : c ≠ '\n' := fun e => h (e ▸ hc)
  simpa using this

theorem pieces_sound (str : Str) (fuel i : Nat) (ps : List Str)
    (h : pieces str fuel i = some ps) :
    ps.flatten = (str.drop i).filter (fun c => c != '\n') ∧
      ∀ p ∈ ps, p.length ≤ LOG_MAX_CHARS ∧ '\n' ∉ p := by
  induction fuel generalizing i ps with
  | zero =>
    by_cases hi : i < str.length
    · simp [pieces, hi] at h
    · simp [pieces, hi] at h
      subst h
      have : str.drop i = [] := List.drop_eq_nil_of_le (by omega)
      simp [this]
  | succ fuel ih =>
    by_cases hi : i < str.length
    · simp only [pieces, hi, if_true] at h
      cases hfind : find (substr str i LOG_MAX_CHARS) '\n' with
      | none =>
        simp only [hfind, Option.map_eq_some'] at h
        obtain ⟨ps1, hps1, rfl⟩ := h
        obtain ⟨ih1, ih2⟩ := ih _ _ hps1
        have hnl : '\n' ∉ substr str i LOG_MAX_CHARS := (find_eq_none_iff _ _).1 hfind
        refine ⟨?_, ?_⟩
        · rw [List.flatten_cons, ih1]
          conv_rhs => rw [← List.take_append_drop LOG_MAX_CHARS (str.drop i)]
          rw [List.filter_append, List.drop_drop]
          have : (List.take LOG_MAX_CHARS (List.drop i str)) = substr str i LOG_MAX_CHARS := rfl
          rw [this, filter_newline_of_not_mem _ hnl, Nat.add_comm]
        · intro p hp
          rcases List.mem_cons.1 hp with rfl | hp
          · exact ⟨by simp [substr], hnl⟩
          · exact ih2 p hp
      | some newline =>
        simp only [hfind, Option.map_eq_some'] at h
        obtain ⟨ps1, hps1, rfl⟩ := h
        obtain ⟨ih1, ih2⟩ := ih _ _ hps1
        obtain ⟨a, b, hsplit, hlen, hmem⟩ := find_eq_some_split _ _ _ hfind
        have hpiece : substr (substr str i LOG_MAX_CHARS) 0 newline = a := by
          rw [substr_zero, hsplit, ← hlen]
          simp
        have hsub : (str.drop i).take LOG_MAX_CHARS = a ++ '\n' :: b := hsplit
        have hdrop := drop_of_take_split (str.drop i) a b '\n' LOG_MAX_CHARS hsub
        have hwhole : str.drop i = a ++ '\n' :: (b ++ (str.drop i).drop LOG_MAX_CHARS) := by
          conv_lhs => rw [← List.take_append_drop LOG_MAX_CHARS (str.drop i), hsub]
          simp
        have hnext : str.drop (i + (newline + 1)) = b ++ (str.drop i).drop LOG_MAX_CHARS := by
          rw [← hdrop, List.drop_drop, hlen, Nat.add_comm]
        refine ⟨?_, ?_⟩
        · rw [List.flatten_cons, ih1, hpiece, hnext]
          conv_rhs => rw [hwhole, List.filter_append, filter_newline_of_not_mem _ hmem]
          simp
        · intro p hp
          rcases List.mem_cons.1 hp with rfl | hp
          · rw [hpiece]
            refine ⟨?_, hmem⟩
            have h1 : (a ++ '\n' :: b).length ≤ LOG_MAX_CHARS := by
              rw [← hsub]
              simp
            simp at h1
            omega
          · exact ih2 p hp
    · simp [pieces, hi] at h
      subst h
      have : str.drop i = [] := List.drop_eq_nil_of_le (by omega)
      simp [this]

theorem pieces_no_newline (str : Str) (fuel i : Nat) (hfuel : str.length - i ≤ fuel)
    (hnl : '\n' ∉ str.drop i) :
    pieces str fuel i =
      some ((List.range ((str.length - i + 999) / 1000)).map
        (fun k => substr str (i + 1000 * k) LOG_MAX_CHARS)) := by
  induction fuel generalizing i with
  | zero =>
    have hi : ¬ i < str.length := by omega
    have h0 : (str.length - i + 999) / 1000 = 0 := by omega
    simp [pieces, hi, h0]
  | succ fuel ih =>
    by_cases hi : i < str.length
    · have hsubnl : '\n' ∉ substr str i LOG_MAX_CHARS := fun hmem =>
        hnl (List.mem_of_mem_take hmem)
      have hfind : find (substr str i LOG_MAX_CHARS) '\n' = none :=
        (find_eq_none_iff _ _).2 hsubnl
      have hnext : '\n' ∉ str.drop (i + LOG_MAX_CHARS) := by
        intro hmem
        rw [← List.drop_drop] at hmem
        exact hnl (List.mem_of_mem_drop hmem)
      have hcount : (str.length - i + 999) / 1000 =
          (str.length - (i + LOG_MAX_CHARS) + 999) / 1000 + 1 := by
        simp only [LOG_MAX_CHARS]
        omega
      simp only [pieces, hi, if_true, hfind]
      rw [ih (i + LOG_MAX_CHARS) (by simp only [LOG_MAX_CHARS]; omega) hnext, hcount,
        List.range_succ_eq_map]
      simp only [Option.map_some', List.map_cons, List.map_map, Nat.mul_zero, Nat.add_zero]
      congr 2
      apply List.map_congr_left
      intro k _
      simp only [Function.comp, LOG_MAX_CHARS]
      congr 1
      omega
    · have h0 : (str.length - i + 999) / 1000 = 0 := by omega
      simp [pieces, hi, h0]

theorem logConsole_long (lg : Logger) (lvl : Level) (str : Str) (w : World)
    (hlen : LOG_MAX_CHARS < str.length) :
    ∃ ps, pieces str str.length 0 = some ps ∧
      lg.logConsole lvl str w = some (emit lvl lg.tag ps w) := by
  obtain ⟨ps, hps⟩ := pieces_isSome str str.length 0 (by omega)
  refine ⟨ps, hps, ?_⟩
  have h : str.length > LOG_MAX_CHARS := hlen
  simp [logConsole, h, logLoop_eq_pieces, hps]

theorem log_of_not_silent (lg : Logger) (lvl : Level) (str : Str) (epochMs : Int) (bt : Tm)
    (s : Sys) (w1 : World) (hsilent : lg.options.silent = false)
    (hconsole : lg.logConsole lvl str s.world = some w1) :
    lg.log lvl str epochMs bt s = some (lg.logFile lvl str epochMs bt { s with world := w1 }) := by
  simp [log, hsilent, hconsole]

theorem substr_eq_charsBetween (str : Str) (k : Nat) :
    substr str (1000 * k) LOG_MAX_CHARS =
      charsBetween str (1000 * k) (min (1000 * (k + 1)) str.length) := by
  unfold substr charsBetween
  rw [List.take_eq_take]
  simp only [List.length_drop, LOG_MAX_CHARS]
  omega

theorem not_mem_substr {c : Char} {str : Str} (h : c ∉ str) (i n : Nat) : c ∉ substr str i n :=
  fun hmem => h (List.mem_of_mem_drop (List.mem_of_mem_take hmem))

theorem plainLines_lengths (lvl : Level) (tag str : Str) :
    (plainLines lvl tag str).map (fun l => l.text.length) =
      (List.range ((str.length + 999) / 1000)).map
        (fun k => if k + 1 < (str.length + 999) / 1000 then 1000
          else str.length - 1000 * ((str.length + 999) / 1000 - 1)) := by
  unfold plainLines
  rw [List.map_map]
  apply List.map_congr_left
  intro k hk
  have hk2 : k < (str.length + 999) / 1000 := List.mem_range.1 hk
  simp only [Function.comp, charsBetween, List.length_take, List.length_drop]
  split_ifs <;> omega

theorem emit_plain (lvl : Level) (tag str : Str) (w : World) (hnul : NUL ∉ str) :
    emit lvl tag ((List.range ((str.length - 0 + 999) / 1000)).map
        (fun k => substr str (0 + 1000 * k) LOG_MAX_CHARS)) w =
      { w with console := w.console ++ plainLines lvl tag str } := by
  unfold emit plainLines
  congr 2
  rw [List.map_map, Nat.sub_zero]
  apply List.map_congr_left
  intro k _
  simp only [Function.comp, Nat.zero_add]
  rw [LoggerBuffer.c_str_eq_self (not_mem_substr hnul _ _), substr_eq_charsBetween]

end Logger

/-- C4 as stated fails: for the 1001-character message made of a NUL and 1000
letters `a`, the console receives an empty first line and the line `a`, while the
chunk rule gives a first line of the first 1000 characters. -/
theorem Logger.log_plain_nul_cut :
    Logger.nulFirst.length = 1001 ∧ '\n' ∉ Logger.nulFirst ∧
      (Logger.consoleOnly.log Level.INFO Logger.nulFirst 0 ⟨0, 1, 0, 0, 0⟩ Sys.start).map
        (fun s => s.world.console.map (fun l => l.text)) = some [[], ['a']] ∧
      (Logger.consoleOnly.log Level.INFO Logger.nulFirst 0 ⟨0, 1, 0, 0, 0⟩ Sys.start).map
        (fun s => s.world.console) ≠
        some (Logger.plainLines Level.INFO Logger.consoleOnly.tag Logger.nulFirst) := by
  decide!

/-- C4, amended: for every message of `n > 1000` characters that contains neither
a newline nor a NUL, the console part of a `Logger::log` that is not silent emits
for the message exactly `ceil (n / 1000)` lines at the given level and tag, line
`k` being the characters at offsets `1000 * k` up to `min (1000 * (k + 1)) n`
(after which only the file part of `log` runs); all lines have 1000 characters
but the last, which has `n - 1000 * (ceil (n / 1000) - 1)`; for `n = 2500` the
lengths are 1000, 1000, 500. -/
theorem Logger.log_plain_chunks (lg : Logger) (lvl : Level) (str : Str) (epochMs : Int)
    (bt : Tm) (s : Sys) (hsilent : lg.options.silent = false)
    (hlen : LOG_MAX_CHARS < str.length) (hnl : '\n' ∉ str) (hnul : NUL ∉ str) :
    lg.logConsole lvl str s.world =
        some { s.world with console := s.world.console ++ Logger.plainLines lvl lg.tag str } ∧
      lg.log lvl str epochMs bt s =
        some (lg.logFile lvl str epochMs bt { s with world :=
          { s.world with console := s.world.console ++ Logger.plainLines lvl lg.tag str } }) ∧
      (Logger.plainLines lvl lg.tag str).length = (str.length + 999) / 1000 ∧
      (Logger.plainLines lvl lg.tag str).map (fun l => l.text.length) =
        (List.range ((str.length + 999) / 1000)).map
          (fun k => if k + 1 < (str.length + 999) / 1000 then 1000
            else str.length - 1000 * ((str.length + 999) / 1000 - 1)) ∧
      (str.length = 2500 →
        (Logger.plainLines lvl lg.tag str).map (fun l => l.text.length) = [1000, 1000, 500]) := by
  have hconsole : lg.logConsole lvl str s.world =
      some { s.world with console := s.world.console ++ Logger.plainLines lvl lg.tag str } := by
    obtain ⟨ps, hps, hlog⟩ := Logger.logConsole_long lg lvl str s.world hlen
    rw [Logger.pieces_no_newline str str.length 0 (by omega) (by simpa using hnl)] at hps
    rw [hlog, ← Option.some.inj hps, Logger.emit_plain lvl lg.tag str s.world hnul]
  refine ⟨hconsole, Logger.log_of_not_silent lg lvl str epochMs bt s _ hsilent hconsole,
    by simp [Logger.plainLines], Logger.plainLines_lengths lvl lg.tag str, fun h2500 => ?_⟩
  rw [Logger.plainLines_lengths, h2500]
  decide

theorem Logger.log_plain_chunks_witness :
    (List.replicate 2500 'a').length = 2500 ∧
      Logger.consoleOnly.logConsole Level.INFO (List.replicate 2500 'a') Sys.start.world =
        some { World.blank with console :=
          (World.blank.console ++
            Logger.plainLines Level.INFO Logger.consoleOnly.tag (List.replicate 2500 'a')) } ∧
      (Logger.plainLines Level.INFO Logger.consoleOnly.tag (List.replicate 2500 'a')).map
        (fun l => l.text.length) = [1000, 1000, 500] :=
  ⟨List.length_replicate _ _,
   (Logger.log_plain_chunks Logger.consoleOnly Level.INFO (List.replicate 2500 'a') 0
      ⟨0, 1, 0, 0, 0⟩ Sys.start rfl (by decide!) (by decide!) (by decide!)).1,
   (Logger.log_plain_chunks Logger.consoleOnly Level.INFO (List.replicate 2500 'a') 0
      ⟨0, 1, 0, 0, 0⟩ Sys.start rfl (by decide!) (by decide!) (by decide!)).2.2.2.2
      (List.length_replicate _ _)⟩

namespace Logger

theorem find_substr_of_find (str : Str) (k : Nat) (hk : find str '\n' = some k)
    (hklt : k < LOG_MAX_CHARS) :
    find (substr str 0 LOG_MAX_CHARS) '\n' = some k ∧
      substr (substr str 0 LOG_MAX_CHARS) 0 k = str.take k ∧ '\n' ∉ str.take k := by
  obtain ⟨a, b, hsplit, hlen, hmem⟩ := find_eq_some_split _ _ _ hk
  obtain ⟨m, hm⟩ : ∃ m, LOG_MAX_CHARS - a.length = m + 1 := ⟨LOG_MAX_CHARS - a.length - 1, by omega⟩
  have hsub : substr str 0 LOG_MAX_CHARS = a ++ '\n' :: b.take m := by
    rw [substr_zero, hsplit, List.take_append_eq_append_take, hm, List.take_succ_cons,
      List.take_of_length_le (by omega)]
  have htake : str.take k = a := by
    rw [hsplit, ← hlen]
    simp
  refine ⟨?_, ?_, ?_⟩
  · rw [hsub, find_split a _ '\n' hmem, hlen]
  · rw [hsub, substr_zero, htake, ← hlen]
    simp
  · rw [htake]
    exact hmem

theorem pieces_first_newline (str : Str) (fuel k : Nat) (hpos : 0 < str.length)
    (hk : find str '\n' = some k) (hklt : k < LOG_MAX_CHARS) :
    pieces str (fuel + 1) 0 = (pieces str fuel (k + 1)).map (fun ps => str.take k :: ps) := by
  obtain ⟨h1, h2, _⟩ := find_substr_of_find str k hk hklt
  simp only [pieces, hpos, if_true, h1, h2, Nat.zero_add]

theorem length_c_str_le (p : Str) : (c_str p).length ≤ p.length :=
  (List.takeWhile_sublist _).length_le

theorem not_mem_c_str {c : Char} {p : Str} (h : c ∉ p) : c ∉ c_str p :=
  fun hmem => h ((List.takeWhile_sublist _).subset hmem)

end Logger

theorem Logger.logFile_console (lg : Logger) (lvl : Level) (str : Str) (epochMs : Int)
    (bt : Tm) (s : Sys) :
    (lg.logFile lvl str epochMs bt s).world.console =
      s.world.console ++ (if lg.options.toFile then Logger.notices s else []) := by
  by_cases hfile : lg.options.toFile = true
  · have hworld : ∀ f : LoggerBuffer → LoggerBuffer,
        (s.onBuffer lg.buff (fun b w => (f b, w))) = { s with
          buffers := (s.onBuffer lg.buff (fun b w => (f b, w))).buffers } := by
      intro f
      unfold Sys.onBuffer
      cases s.buffers[lg.buff]? <;> rfl
    simp only [Logger.logFile, hfile, if_true]
    rw [hworld]
    by_cases hc : s.createdGlobal = true <;> by_cases hs : s.consumerStarted = true <;>
      by_cases he : s.world.fileexists s.g.path = true <;>
        simp [get_global, Sys.onGlobal, Logger.startConsumer, Logger.notices, hc, hs, he,
          World.android_log_write, World.deletefile]
  · have hf : lg.options.toFile = false := by simpa using hfile
    simp [Logger.logFile, hf]

/-- C5 as stated fails. In a 1004-character message whose first newline is at
offset 3 and whose character at offset 1 is NUL, the first console line is `a`,
not the first 3 characters of the message. And for a logger that also logs to
file, the first call emits, after the lines of the message, the one-time notices
of `get_global` and `startConsumer`: for a 2500-character message without NUL
whose only newline is at offset 400 the emitted lines have the lengths 400,
1000, 1000, 99, 47 and 24. -/
theorem Logger.log_first_line_nul_cut :
    (find Logger.nulBeforeNewline '\n' = some 3 ∧ Logger.nulBeforeNewline.length = 1004 ∧
      (Logger.consoleOnly.log Level.INFO Logger.nulBeforeNewline 0 ⟨0, 1, 0, 0, 0⟩
        Sys.start).map (fun s => (s.world.console.map (fun l => l.text)).head?)
        = some (some ['a']) ∧
      (Logger.consoleOnly.log Level.INFO Logger.nulBeforeNewline 0 ⟨0, 1, 0, 0, 0⟩
        Sys.start).map (fun s => (s.world.console.map (fun l => l.text)).head?)
        ≠ some (some (Logger.nulBeforeNewline.take 3))) ∧
    (find Logger.newlineAt400 '\n' = some 400 ∧ Logger.newlineAt400.length = 2500 ∧
      NUL ∉ Logger.newlineAt400 ∧ '\n' ∉ Logger.newlineAt400.drop 401 ∧
      (Logger.filing.log Level.INFO Logger.newlineAt400 6 ⟨0, 2, 3, 4, 5⟩ Sys.start).map
        (fun s => s.world.console.map (fun l => l.text.length))
        = some [400, 1000, 1000, 99, 47, 24]) := by
  refine ⟨?_, ?_⟩ <;> decide!

/-- C5, amended: for every message longer than 1000 characters whose first
newline is at offset `k < 1000` and whose first `k` characters contain no NUL,
the first console line that a `Logger::log` that is not silent emits for the
message is exactly the first `k` characters, and the remaining console lines it
emits for the message are those the chunking loop emits when started, with any
sufficient fuel, at cursor `k + 1`. The call returns, and the console after the
whole call is the console after these lines followed, for a logger that logs to
file, by the one-time notices of `get_global` and `startConsumer` that are still
due, and by nothing else. For a 2500-character message without NUL whose only
newline is at offset 400 the lines emitted for the message have lengths 400,
1000, 1000 and 99. -/
theorem Logger.log_first_newline (lg : Logger) (lvl : Level) (str : Str) (epochMs : Int)
    (bt : Tm) (s : Sys) (k : Nat) (hsilent : lg.options.silent = false)
    (hlen : LOG_MAX_CHARS < str.length) (hk : find str '\n' = some k)
    (hklt : k < LOG_MAX_CHARS) (hnul : NUL ∉ str.take k) :
    ∃ w1, lg.logConsole lvl str s.world = some w1 ∧
      lg.log lvl str epochMs bt s =
        some (lg.logFile lvl str epochMs bt { s with world := w1 }) ∧
      (∀ fuel, str.length - (k + 1) ≤ fuel →
        Logger.logLoop lvl lg.tag str fuel (k + 1)
          { s.world with console := s.world.console ++ [⟨lvl, c_str lg.tag, str.take k⟩] }
          = some w1) ∧
      (∃ s1, lg.log lvl str epochMs bt s = some s1 ∧
        s1.world.console =
          w1.console ++ (if lg.options.toFile then Logger.notices s else [])) ∧
      (str.length = 2500 → k = 400 → '\n' ∉ str.drop 401 → NUL ∉ str →
        (w1.console.drop s.world.console.length).map (fun l => l.text.length)
          = [400, 1000, 1000, 99]) := by
  obtain ⟨f, hf⟩ : ∃ f, str.length = f + 1 := ⟨str.length - 1, by omega⟩
  obtain ⟨ps1, hps1⟩ := Logger.pieces_isSome str f (k + 1) (by omega)
  have hps : Logger.pieces str str.length 0 = some (str.take k :: ps1) := by
    rw [hf, Logger.pieces_first_newline str f k (by omega) hk hklt, hps1]
    rfl
  have hconsole : lg.logConsole lvl str s.world =
      some (Logger.emit lvl lg.tag (str.take k :: ps1) s.world) := by
    obtain ⟨ps, hps2, hlog⟩ := Logger.logConsole_long lg lvl str s.world hlen
    rw [hlog, Option.some.inj (hps2.symm.trans hps)]
  have hfirst : s.world.android_log_write lvl lg.tag (str.take k) =
      { s.world with console := s.world.console ++ [⟨lvl, c_str lg.tag, str.take k⟩] } := by
    simp [World.android_log_write, LoggerBuffer.c_str_eq_self hnul]
  refine ⟨_, hconsole, Logger.log_of_not_silent lg lvl str epochMs bt s _ hsilent hconsole,
    ?_, ⟨_, Logger.log_of_not_silent lg lvl str epochMs bt s _ hsilent hconsole,
      Logger.logFile_console lg lvl str epochMs bt _⟩, ?_⟩
  · intro fuel hfuel
    obtain ⟨qs, hqs⟩ := Logger.pieces_isSome str fuel (k + 1) hfuel
    rw [Logger.logLoop_eq_pieces, hqs, Logger.pieces_fuel_irrel str _ _ _ _ _ hqs hps1,
      Logger.emit_cons, hfirst]
    rfl
  · intro h2500 hk400 hnl hnulall
    subst hk400
    have hrest := Logger.pieces_no_newline str f 401 (by omega) hnl
    rw [hps1] at hrest
    have hcount : (str.length - 401 + 999) / 1000 = 3 := by omega
    rw [hcount] at hrest
    have hps1eq := Option.some.inj hrest
    simp only [Logger.emit, List.drop_left, List.map_map, List.map_cons, Function.comp]
    rw [hps1eq]
    have hc : ∀ i n, c_str (substr str i n) = substr str i n := fun i n =>
      LoggerBuffer.c_str_eq_self (Logger.not_mem_substr hnulall i n)
    simp only [List.range_succ, List.range_zero, List.map_append, List.map_cons, List.map_nil,
      List.nil_append, List.cons_append, Function.comp_apply, hc,
      LoggerBuffer.c_str_eq_self hnul]
    simp [substr, h2500, LOG_MAX_CHARS]

theorem Logger.log_first_newline_witness :
    find Logger.newlineAt400 '\n' = some 400 ∧ Logger.newlineAt400.length = 2500 ∧
      ∃ w1, Logger.filing.logConsole Level.INFO Logger.newlineAt400 Sys.start.world
          = some w1 ∧
        (∃ s1, Logger.filing.log Level.INFO Logger.newlineAt400 6 ⟨0, 2, 3, 4, 5⟩ Sys.start
            = some s1 ∧
          s1.world.console = w1.console ++ Logger.notices Sys.start) ∧
        (w1.console.drop Sys.start.world.console.length).map (fun l => l.text.length)
          = [400, 1000, 1000, 99] := by
  obtain ⟨w1, h1, _, _, h4, h5⟩ := Logger.log_first_newline Logger.filing Level.INFO
    Logger.newlineAt400 6 ⟨0, 2, 3, 4, 5⟩ Sys.start 400 rfl (by decide!) (by decide!)
    (by decide!) (by decide!)
  exact ⟨by decide!, by decide!, w1, h1, h4, h5 (by decide!) rfl (by decide!) (by decide!)⟩

/-- C10 as stated fails: the 1003-character message `a`, NUL, `b`, then 1000
letters `c` has no newline, yet the emitted console lines are `a` and `ccc`; their
concatenation is not the message. -/
theorem Logger.log_chunks_nul_loss :
    Logger.nulInside.length = 1003 ∧
      (Logger.consoleOnly.log Level.INFO Logger.nulInside 0 ⟨0, 1, 0, 0, 0⟩ Sys.start).map
        (fun s => s.world.console.map (fun l => l.text)) = some [['a'], ['c', 'c', 'c']] ∧
      (Logger.consoleOnly.log Level.INFO Logger.nulInside 0 ⟨0, 1, 0, 0, 0⟩ Sys.start).map
        (fun s => (s.world.console.map (fun l => l.text)).flatten)
        ≠ some (Logger.nulInside.filter (fun c => c != '\n')) := by
  decide!

/-- C10, amended: for every message longer than 1000 characters the chunking loop
of a `Logger::log` that is not silent ends, within the fuel `str.length`, with the
loop condition false; every emitted console line has at most 1000 characters and
no newline; and when the message contains no NUL the concatenation of the emitted
lines, in order, is the message with every newline removed. -/
theorem Logger.log_chunks_cover (lg : Logger) (lvl : Level) (str : Str) (epochMs : Int)
    (bt : Tm) (s : Sys) (hsilent : lg.options.silent = false)
    (hlen : LOG_MAX_CHARS < str.length) :
    ∃ lines, lg.logConsole lvl str s.world =
        some { s.world with console := s.world.console ++ lines } ∧
      lg.log lvl str epochMs bt s =
        some (lg.logFile lvl str epochMs bt
          { s with world := { s.world with console := s.world.console ++ lines } }) ∧
      (∀ l ∈ lines, l.prio = lvl ∧ l.tag = c_str lg.tag ∧
        l.text.length ≤ LOG_MAX_CHARS ∧ '\n' ∉ l.text) ∧
      (NUL ∉ str →
        (lines.map (fun l => l.text)).flatten = str.filter (fun c => c != '\n')) := by
  obtain ⟨ps, hps, hlog⟩ := Logger.logConsole_long lg lvl str s.world hlen
  obtain ⟨hcat, hpiece⟩ := Logger.pieces_sound str str.length 0 ps hps
  have hconsole : lg.logConsole lvl str s.world = some { s.world with console :=
      (s.world.console ++ ps.map (fun p => ⟨lvl, c_str lg.tag, c_str p⟩)) } := hlog
  refine ⟨ps.map (fun p => ⟨lvl, c_str lg.tag, c_str p⟩), hconsole,
    Logger.log_of_not_silent lg lvl str epochMs bt s _ hsilent hconsole, ?_, ?_⟩
  · intro l hl
    obtain ⟨p, hp, rfl⟩ := List.mem_map.1 hl
    exact ⟨rfl, rfl, Nat.le_trans (Logger.length_c_str_le p) (hpiece p hp).1,
      Logger.not_mem_c_str (hpiece p hp).2⟩
  · intro hnul
    have hpnul : ∀ p ∈ ps, c_str p = p := by
      intro p hp
      apply LoggerBuffer.c_str_eq_self
      intro hmem
      have h1 : NUL ∈ ps.flatten := List.mem_flatten.2 ⟨p, hp, hmem⟩
      rw [hcat] at h1
      exact hnul (List.mem_of_mem_drop (List.mem_of_mem_filter h1))
    rw [List.map_map]
    have hmap : ps.map ((fun l : ConsoleLine => l.text) ∘
        fun p => (⟨lvl, c_str lg.tag, c_str p⟩ : ConsoleLine)) = ps.map id :=
      List.map_congr_left (fun p hp => hpnul p hp)
    rw [hmap, List.map_id, hcat, List.drop_zero]

theorem Logger.log_chunks_cover_witness :
    LOG_MAX_CHARS < Logger.newlineAt400.length ∧
      ∃ lines, Logger.consoleOnly.logConsole Level.INFO Logger.newlineAt400 World.blank =
          some { World.blank with console := World.blank.console ++ lines } ∧
        (∀ l ∈ lines, l.text.length ≤ LOG_MAX_CHARS ∧ '\n' ∉ l.text) ∧
        (lines.map (fun l => l.text)).flatten =
          Logger.newlineAt400.filter (fun c => c != '\n') := by
  obtain ⟨lines, h1, _, h3, h4⟩ := Logger.log_chunks_cover Logger.consoleOnly Level.INFO
    Logger.newlineAt400 0 ⟨0, 1, 0, 0, 0⟩ Sys.start rfl (by decide!)
  exact ⟨by decide!, lines, h1, fun l hl => ⟨(h3 l hl).2.2.1, (h3 l hl).2.2.2⟩,
    h4 (by decide!)⟩

theorem get_global_buffers (s : Sys) : (get_global s).buffers = s.buffers := by
  unfold get_global
  split <;> rfl

theorem get_global_g (s : Sys) : (get_global s).g = s.g := by
  unfold get_global
  split <;> rfl

theorem Sys.onGlobal_buffers (s : Sys) (f : LoggerBuffer → World → LoggerBuffer × World) :
    (s.onGlobal f).buffers = s.buffers := rfl

theorem Sys.onGlobal_g (s : Sys) (f : LoggerBuffer → World → LoggerBuffer × World) :
    (s.onGlobal f).g = (f s.g s.world).1 := rfl

theorem Sys.onBuffer_g (s : Sys) (i : Nat) (f : LoggerBuffer → World → LoggerBuffer × World) :
    (s.onBuffer i f).g = s.g := by
  unfold Sys.onBuffer
  split <;> rfl

theorem Sys.onBuffer_buffers (s : Sys) (i : Nat)
    (f : LoggerBuffer → World → LoggerBuffer × World) :
    (s.onBuffer i f).buffers =
      match s.buffers[i]? with
      | some b => s.buffers.set i (f b s.world).1
      | none => s.buffers := by
  unfold Sys.onBuffer
  split <;> rfl

theorem Logger.startConsumer_buffers (s : Sys) : (Logger.startConsumer s).buffers = s.buffers := by
  unfold Logger.startConsumer
  split <;> rfl

theorem Logger.startConsumer_g (s : Sys) : (Logger.startConsumer s).g = s.g := by
  unfold Logger.startConsumer
  split <;> rfl

theorem Logger.logFile_buffers (lg : Logger) (lvl : Level) (str : Str) (epochMs : Int)
    (bt : Tm) (s : Sys) (h : lg.options.toFile = true) :
    (lg.logFile lvl str epochMs bt s).buffers =
      match s.buffers[lg.buff]? with
      | some b => s.buffers.set lg.buff (b.addMessage (StringView.ofString (lg.logMessage lvl str epochMs bt)))
      | none => s.buffers := by
  simp only [Logger.logFile, h, if_true, Logger.startConsumer_buffers, Sys.onGlobal_buffers,
    get_global_buffers, Sys.onBuffer_buffers]

theorem Logger.logFile_g (lg : Logger) (lvl : Level) (str : Str) (epochMs : Int)
    (bt : Tm) (s : Sys) (h : lg.options.toFile = true) :
    (lg.logFile lvl str epochMs bt s).g =
      s.g.addMessage (StringView.ofString (lg.logMessage lvl str epochMs bt)) := by
  simp only [Logger.logFile, h, if_true, Logger.startConsumer_g, Sys.onGlobal_g,
    get_global_g, Sys.onBuffer_g]

theorem Logger.logConsole_isSome (lg : Logger) (lvl : Level) (str : Str) (w : World) :
    ∃ w1, lg.logConsole lvl str w = some w1 ∧ w1.files = w.files ∧
      w1.openable = w.openable := by
  by_cases h : LOG_MAX_CHARS < str.length
  · obtain ⟨ps, _, hlog⟩ := Logger.logConsole_long lg lvl str w h
    exact ⟨_, hlog, rfl, rfl⟩
  · have h2 : ¬ str.length > LOG_MAX_CHARS := h
    exact ⟨w.android_log_write lvl lg.tag str, by simp [Logger.logConsole, h2], rfl, rfl⟩

theorem put2_eq_twoDigits : ∀ n, n < 100 → put2 n = twoDigits n ∧ NUL ∉ twoDigits n := by
  decide!

theorem pad3_eq_threeDigits :
    ∀ n, n < 1000 → padLeft 3 '0' (Nat.toDigits 10 n) = threeDigits n ∧ NUL ∉ threeDigits n := by
  decide!

theorem get_level_names (lvl : Level) :
    get_level lvl ∈ ["CRITICAL".toList, "ERROR".toList, "WARNING".toList, "INFO".toList,
      "DEBUG".toList] ∧ NUL ∉ get_level lvl := by
  cases lvl <;> decide

theorem showInt_ms (epochMs : Int) (h : 0 ≤ epochMs) :
    showInt (Int.tmod epochMs 1000) = Nat.toDigits 10 (epochMs % 1000).toNat ∧
      (epochMs % 1000).toNat < 1000 := by
  rw [Int.tmod_eq_emod h (by decide)]
  have h1 : 0 ≤ epochMs % 1000 := Int.emod_nonneg _ (by decide)
  have h2 : epochMs % 1000 < 1000 := Int.emod_lt_of_pos _ (by decide)
  refine ⟨?_, by omega⟩
  have h3 : ¬ epochMs % 1000 < 0 := by omega
  simp [showInt, h3]

theorem Logger.logMessage_eq_diskLine (lg : Logger) (lvl : Level) (str : Str) (epochMs : Int)
    (bt : Tm) (hmon : bt.tm_mon < 12) (hday : bt.tm_mday ≤ 31) (hhour : bt.tm_hour < 24)
    (hmin : bt.tm_min < 60) (hsec : bt.tm_sec ≤ 60) (hms : 0 ≤ epochMs)
    (htag : NUL ∉ lg.tag) (htext : NUL ∉ str) :
    c_str (lg.logMessage lvl str epochMs bt) =
      diskLine (bt.tm_mon + 1) bt.tm_mday bt.tm_hour bt.tm_min bt.tm_sec
        (epochMs % 1000).toNat (get_level lvl) lg.tag str := by
  obtain ⟨m1, m2⟩ := put2_eq_twoDigits (bt.tm_mon + 1) (by omega)
  obtain ⟨d1, d2⟩ := put2_eq_twoDigits bt.tm_mday (by omega)
  obtain ⟨h1, h2⟩ := put2_eq_twoDigits bt.tm_hour (by omega)
  obtain ⟨n1, n2⟩ := put2_eq_twoDigits bt.tm_min (by omega)
  obtain ⟨s1, s2⟩ := put2_eq_twoDigits bt.tm_sec (by omega)
  obtain ⟨i1, i2⟩ := showInt_ms epochMs hms
  obtain ⟨t1, t2⟩ := pad3_eq_threeDigits _ i2
  have hlv := (get_level_names lvl).2
  have e1 : NUL ∉ "-".toList := by decide
  have e2 : NUL ∉ " ".toList := by decide
  have e3 : NUL ∉ ":".toList := by decide
  have e4 : NUL ∉ ".".toList := by decide
  have e5 : NUL ∉ ": ".toList := by decide
  have hmsg : lg.logMessage lvl str epochMs bt =
      diskLine (bt.tm_mon + 1) bt.tm_mday bt.tm_hour bt.tm_min bt.tm_sec
        (epochMs % 1000).toNat (get_level lvl) lg.tag str := by
    simp only [Logger.logMessage, put_time, diskLine, m1, d1, h1, n1, s1, i1, t1,
      LoggerBuffer.c_str_eq_self htext, List.append_assoc]
  rw [hmsg]
  apply LoggerBuffer.c_str_eq_self
  simp only [diskLine, List.mem_append, m2, d2, h2, n2, s2, t2, e1, e2, e3, e4, e5, hlv, htag,
    htext, or_self, not_false_eq_true]

/-- C9 as stated fails: a logger that logs to file is given the text `x`, NUL,
`y` at 01-02 03:04:05.006; the line enqueued in its buffer ends with `: x`, not
with the text that was passed. And for a clock reading 5 ms before the epoch the
millisecond field of the enqueued line is `0-5`, not three digits. -/
theorem Logger.log_disk_line_nul_cut :
    (Logger.filing.log Level.INFO ['x', NUL, 'y'] 6 ⟨0, 2, 3, 4, 5⟩ Sys.start).map
        (fun s => s.buffers.map (fun b => b.messages))
        = some [["01-02 03:04:05.006 INFO QuestHook[mod|v1]: x".toList]] ∧
      (Logger.filing.log Level.INFO ['x', NUL, 'y'] 6 ⟨0, 2, 3, 4, 5⟩ Sys.start).map
        (fun s => s.buffers.map (fun b => b.messages))
        ≠ some [[diskLine 1 2 3 4 5 6 "INFO".toList Logger.filing.tag ['x', NUL, 'y']]] ∧
      (Logger.filing.log Level.INFO "m".toList (-5) ⟨0, 1, 0, 0, 0⟩ Sys.start).map
        (fun s => s.buffers.map (fun b => b.messages))
        = some [["01-01 00:00:00.0-5 INFO QuestHook[mod|v1]: m".toList]] := by
  decide!

/-- C9, amended: for every local time `bt` within the calendar ranges, every clock
reading `epochMs` that is not negative, every severity, and every tag and text
without a NUL character, the line that a `Logger::log` which is not silent and
logs to file enqueues, in its own buffer when that is open and in the global
buffer when that is open (whatever the state of the other), is exactly
`MM-DD HH:MM:SS.mmm`, a space, the severity name, a space, the tag, `: ` and the
text, with two-digit date and time fields and a three-digit millisecond part;
and the severity names are CRITICAL, ERROR, WARNING, INFO and DEBUG, each for the
level of that name. -/
theorem Logger.log_enqueues_disk_line (lg : Logger) (lvl : Level) (str : Str) (epochMs : Int)
    (bt : Tm) (s : Sys)
    (hsilent : lg.options.silent = false) (htoFile : lg.options.toFile = true)
    (hmon : bt.tm_mon < 12) (hday : bt.tm_mday ≤ 31) (hhour : bt.tm_hour < 24)
    (hmin : bt.tm_min < 60) (hsec : bt.tm_sec ≤ 60) (hms : 0 ≤ epochMs)
    (htag : NUL ∉ lg.tag) (htext : NUL ∉ str) :
    (∃ s1, lg.log lvl str epochMs bt s = some s1 ∧
      (∀ b, s.buffers[lg.buff]? = some b → b.closed = false →
        s1.buffers[lg.buff]? = some { b with messages := b.messages ++
          [diskLine (bt.tm_mon + 1) bt.tm_mday bt.tm_hour bt.tm_min bt.tm_sec
            (epochMs % 1000).toNat (get_level lvl) lg.tag str] }) ∧
      (s.g.closed = false → s1.g = { s.g with messages := s.g.messages ++
        [diskLine (bt.tm_mon + 1) bt.tm_mday bt.tm_hour bt.tm_min bt.tm_sec
          (epochMs % 1000).toNat (get_level lvl) lg.tag str] })) ∧
      get_level Level.CRITICAL = "CRITICAL".toList ∧
      get_level Level.ERROR = "ERROR".toList ∧
      get_level Level.WARNING = "WARNING".toList ∧
      get_level Level.INFO = "INFO".toList ∧
      get_level Level.DEBUG = "DEBUG".toList := by
  refine ⟨?_, rfl, rfl, rfl, rfl, rfl⟩
  obtain ⟨w1, hw1, _, _⟩ := Logger.logConsole_isSome lg lvl str s.world
  have hline : (StringView.ofString (lg.logMessage lvl str epochMs bt)).dataString =
      diskLine (bt.tm_mon + 1) bt.tm_mday bt.tm_hour bt.tm_min bt.tm_sec
        (epochMs % 1000).toNat (get_level lvl) lg.tag str := by
    unfold StringView.dataString StringView.ofString
    rw [List.append_nil]
    exact Logger.logMessage_eq_diskLine lg lvl str epochMs bt hmon hday hhour hmin hsec
      hms htag htext
  refine ⟨_, Logger.log_of_not_silent lg lvl str epochMs bt s w1 hsilent hw1, ?_, ?_⟩
  · intro b hb hopen
    have hlt : lg.buff < s.buffers.length := by
      rcases Nat.lt_or_ge lg.buff s.buffers.length with h | h
      · exact h
      · rw [List.getElem?_eq_none h] at hb
        cases hb
    rw [Logger.logFile_buffers _ _ _ _ _ _ htoFile]
    simp only [hb, List.getElem?_set_self hlt, LoggerBuffer.addMessage, hopen,
      Bool.false_eq_true, if_false, hline]
  · intro hg
    rw [Logger.logFile_g _ _ _ _ _ _ htoFile]
    simp only [LoggerBuffer.addMessage, hg, Bool.false_eq_true, if_false, hline]

theorem Logger.log_enqueues_disk_line_witness :
    (∃ s1, Logger.filing.log Level.WARNING "ready".toList 1700000000042 ⟨10, 14, 22, 13, 20⟩
        Sys.start = some s1 ∧
      s1.buffers[Logger.filing.buff]? = some { LoggerBuffer.fresh with messages :=
        ["11-14 22:13:20.042 WARNING QuestHook[mod|v1]: ready".toList] } ∧
      s1.g.messages = ["11-14 22:13:20.042 WARNING QuestHook[mod|v1]: ready".toList]) ∧
    (∃ s1, Logger.other.log Level.ERROR "late".toList 1700000000042 ⟨10, 14, 22, 13, 20⟩
        Sys.two = some s1 ∧
      s1.g.messages = ["11-14 22:13:20.042 ERROR QuestHook[other|v1]: late".toList]) := by
  obtain ⟨⟨s1, h1, h2, h3⟩, _⟩ := Logger.log_enqueues_disk_line Logger.filing Level.WARNING
    "ready".toList 1700000000042 ⟨10, 14, 22, 13, 20⟩ Sys.start rfl rfl
    (by decide) (by decide) (by decide) (by decide) (by decide) (by decide) (by decide)
    (by decide)
  obtain ⟨⟨t1, k1, _, k3⟩, _⟩ := Logger.log_enqueues_disk_line Logger.other Level.ERROR
    "late".toList 1700000000042 ⟨10, 14, 22, 13, 20⟩ Sys.two rfl rfl
    (by decide) (by decide) (by decide) (by decide) (by decide) (by decide) (by decide)
    (by decide)
  refine ⟨⟨s1, h1, ?_, ?_⟩, ⟨t1, k1, ?_⟩⟩
  · rw [h2 LoggerBuffer.fresh rfl rfl]
    decide
  · rw [h3 rfl]
    decide
  · rw [k3 rfl]
    decide

namespace LoggerBuffer

end LoggerBuffer

theorem Sys.run_constructRun_value :
    (Sys.two.run Op.constructRun 0).map (fun h => h.own) =
        some [(0, "01-02 03:04:05.006 INFO QuestHook[mod|v1]: x".toList),
          (3, "01-02 03:04:05.007 ERROR QuestHook[new|v1]: y".toList)] ∧
      (Sys.two.run Op.constructRun 0).map (fun h => h.glob) =
        some [(0, "01-02 03:04:05.006 INFO QuestHook[mod|v1]: x".toList),
          (1, "01-02 03:04:05.007 ERROR QuestHook[other|v1]: w".toList),
          (3, "01-02 03:04:05.007 ERROR QuestHook[new|v1]: y".toList)] ∧
      (Sys.two.run Op.constructRun 0).map (fun h => h.final.sinkText) =
        some ("01-02 03:04:05.006 INFO QuestHook[mod|v1]: x\n" ++
          "01-02 03:04:05.007 ERROR QuestHook[other|v1]: w\n" ++
          "01-02 03:04:05.007 ERROR QuestHook[new|v1]: y\n").toList := by
  decide!

theorem Logger.close_marks_closed (lg : Logger) (s : Sys) (b0 : LoggerBuffer)
    (hb : s.buffers[lg.buff]? = some b0) :
    ∃ b1, (lg.close s).buffers[lg.buff]? = some b1 ∧ b1.closed = true := by
  have hlt : lg.buff < s.buffers.length := by
    rcases Nat.lt_or_ge lg.buff s.buffers.length with h | h
    · exact h
    · rw [List.getElem?_eq_none h] at hb
      cases hb
  have h1 : (lg.flush s).buffers = s.buffers.set lg.buff (b0.flush s.utilsTag s.world).1 := by
    simp only [Logger.flush, Sys.onGlobal_buffers, get_global_buffers, Sys.onBuffer_buffers, hb]
  have h2 : (lg.flush s).buffers[lg.buff]? = some (b0.flush s.utilsTag s.world).1 := by
    rw [h1, List.getElem?_set_self hlt]
  have hclose : lg.close s =
      (lg.flush s).onBuffer lg.buff (fun b w => ({ b with closed := true }, w)) := rfl
  refine ⟨{ (b0.flush s.utilsTag s.world).1 with closed := true }, ?_, rfl⟩
  rw [hclose, Sys.onBuffer_buffers]
  simp only [h2]
  rw [List.getElem?_set_self (by rw [h1, List.length_set]; exact hlt)]

theorem Logger.init_open_failure_closes (lg : Logger) (logDir : Str) (s : Sys)
    (b : LoggerBuffer) (htoFile : lg.options.toFile = true)
    (hb : s.buffers[lg.buff]? = some b) (hfail : s.world.openable b.path = false) :
    (lg.init logDir s).buffers[lg.buff]? = some { b with closed := true } := by
  have hlt : lg.buff < s.buffers.length := by
    rcases Nat.lt_or_ge lg.buff s.buffers.length with h | h
    · exact h
    · rw [List.getElem?_eq_none h] at hb
      cases hb
  by_cases h1 : s.world.fileexists b.path = true <;>
    by_cases h2 : s.world.dirs logDir = true <;>
      simp [Logger.init, htoFile, hb, h1, h2, World.openTrunc, World.deletefile, World.mkpath,
        World.direxists, World.android_log_write, hfail, List.getElem?_set_self hlt]

/-- C2: on a closed buffer, after each call of any sequence of `addMessage` calls
(after the first `k` calls, for every `k`), `length()` returns 0, also when lines
from before closing are still held, and the stored queue and the whole buffer are
as they were before the calls. `Logger::close` leaves the logger's buffer in
that closed state, so the same holds after it. -/
theorem LoggerBuffer.closed_ignores_addMessage (b : LoggerBuffer) (h : b.closed = true)
    (msgs : List StringView) (k : Nat) :
    ((msgs.take k).foldl LoggerBuffer.addMessage b).length = 0 ∧
      ((msgs.take k).foldl LoggerBuffer.addMessage b).messages = b.messages ∧
      (msgs.take k).foldl LoggerBuffer.addMessage b = b ∧
      ∀ (lg : Logger) (s : Sys) (b0 : LoggerBuffer), s.buffers[lg.buff]? = some b0 →
        ∃ b1, (lg.close s).buffers[lg.buff]? = some b1 ∧ b1.closed = true ∧
          ((msgs.take k).foldl LoggerBuffer.addMessage b1).length = 0 ∧
          (msgs.take k).foldl LoggerBuffer.addMessage b1 = b1 := by
  refine ⟨?_, ?_, LoggerBuffer.foldl_addMessage_of_closed b h _, ?_⟩
  · rw [LoggerBuffer.foldl_addMessage_of_closed b h]
    exact LoggerBuffer.length_of_closed b h
  · rw [LoggerBuffer.foldl_addMessage_of_closed b h]
  · intro lg s b0 hb
    obtain ⟨b1, h1, h2⟩ := Logger.close_marks_closed lg s b0 hb
    refine ⟨b1, h1, h2, ?_, LoggerBuffer.foldl_addMessage_of_closed b1 h2 _⟩
    rw [LoggerBuffer.foldl_addMessage_of_closed b1 h2]
    exact LoggerBuffer.length_of_closed b1 h2

theorem LoggerBuffer.closed_ignores_addMessage_witness :
    LoggerBuffer.closedPending.closed = true ∧
      (([StringView.ofString "x".toList, StringView.ofString "y".toList].take 2).foldl
          LoggerBuffer.addMessage LoggerBuffer.closedPending).length = 0 ∧
      (([StringView.ofString "x".toList, StringView.ofString "y".toList].take 2).foldl
          LoggerBuffer.addMessage LoggerBuffer.closedPending).messages = ["a".toList] ∧
      ∃ b1, (Logger.filing.close Sys.start).buffers[Logger.filing.buff]? = some b1 ∧
        b1.closed = true ∧
        (([StringView.ofString "x".toList, StringView.ofString "y".toList].take 2).foldl
          LoggerBuffer.addMessage b1).length = 0 :=
  ⟨rfl,
   (LoggerBuffer.closed_ignores_addMessage LoggerBuffer.closedPending rfl
      [StringView.ofString "x".toList, StringView.ofString "y".toList] 2).1,
   (LoggerBuffer.closed_ignores_addMessage LoggerBuffer.closedPending rfl
      [StringView.ofString "x".toList, StringView.ofString "y".toList] 2).2.1,
   (fun ⟨b1, h1, h2, h3, _⟩ => ⟨b1, h1, h2, h3⟩)
     ((LoggerBuffer.closed_ignores_addMessage LoggerBuffer.closedPending rfl
        [StringView.ofString "x".toList, StringView.ofString "y".toList] 2).2.2.2 Logger.filing Sys.start LoggerBuffer.fresh rfl)⟩
